import Mathlib

/-!
# Verification of the corpbank client bearer-token scheme

A shallow embedding, in Lean 4, of the bearer-token construction, signing,
verification, packing and unpacking code of the `corpbankclient` Go package
(`bearer_token.go`, `client.go`, `webhook.go`), together with proofs of the
specified properties.

Modelling conventions:
* Go byte slices are `List Nat` with every element `< 256`.
* Go strings are `List Char`; all strings handled by this code are ASCII,
  so the UTF-8 bytes of a string are `List.map Char.toNat`.
* Machine integers are modelled as `Nat`/`Int` with explicit `% 2 ^ 32`
  (resp. `% 2 ^ 64`) where 32-bit (64-bit) overflow matters (SHA-256).
* `time.Time` is modelled as an instant (seconds since the Unix epoch plus
  a nanosecond part) together with a zone offset in minutes; `time.Now()`
  becomes an explicit parameter of every operation that reads the clock.
* Fallible operations return `Option`/`Except`, or return the receiver
  unchanged next to an error value where the Go code mutates a receiver.
-/

namespace CorpBank

/-! ## Bytes, ASCII and decimal rendering -/

/-- The UTF-8 bytes of an ASCII string (all strings in this development are
ASCII, where UTF-8 coincides with the code points). -/
def asciiBytes (s : List Char) : List Nat :=
  s.map Char.toNat

/-- Decimal digit character for a value `0 ≤ n ≤ 9`. -/
def digitChar (n : Nat) : Char :=
  Char.ofNat (48 + n)

/-- Two-digit zero-padded decimal rendering (Go `%02d` on fields known to be
below 100). -/
def pad2 (n : Nat) : List Char :=
  [digitChar (n / 10 % 10), digitChar (n % 10)]

/-- Four-digit zero-padded decimal rendering (Go `%04d` on fields known to be
below 10000). -/
def pad4 (n : Nat) : List Char :=
  [digitChar (n / 1000 % 10), digitChar (n / 100 % 10),
   digitChar (n / 10 % 10), digitChar (n % 10)]

/-- Is `c` an ASCII decimal digit? -/
def isDigit (c : Char) : Bool :=
  48 ≤ c.toNat && c.toNat ≤ 57

/-- Numeric value of a decimal digit character. -/
def digitVal (c : Char) : Nat :=
  c.toNat - 48

/-! ## Hexadecimal (Go `encoding/hex`)

`hex.EncodeToString` renders each byte as two lowercase hex digits;
`hex.DecodeString` accepts upper- and lowercase digits and requires an even
number of them. -/

/-- Lowercase hex digit for a value `0 ≤ n ≤ 15`. -/
def hexDigitChar (n : Nat) : Char :=
  if n < 10 then Char.ofNat (48 + n) else Char.ofNat (97 + (n - 10))

/-- `hex.EncodeToString`: two lowercase digits per byte. -/
def hexEncode (bs : List Nat) : List Char :=
  bs.flatMap (fun b => [hexDigitChar (b / 16), hexDigitChar (b % 16)])

/-- Value of one hex digit, accepting both cases (as Go `hex.DecodeString`
does); `none` on anything else. -/
def hexDigitVal (c : Char) : Option Nat :=
  if 48 ≤ c.toNat ∧ c.toNat ≤ 57 then some (c.toNat - 48)
  else if 97 ≤ c.toNat ∧ c.toNat ≤ 102 then some (c.toNat - 87)
  else if 65 ≤ c.toNat ∧ c.toNat ≤ 70 then some (c.toNat - 55)
  else none

/-- `hex.DecodeString`: pairs of hex digits; odd length or a non-hex
character is an error. -/
def hexDecode : List Char → Option (List Nat)
  | [] => some []
  | [_] => none
  | c₁ :: c₂ :: rest => do
      let h ← hexDigitVal c₁
      let l ← hexDigitVal c₂
      let tl ← hexDecode rest
      pure ((h * 16 + l) :: tl)

/-! ## URL-safe base64 (Go `encoding/base64`, `URLEncoding`)

Padded encoding over the alphabet `A–Z a–z 0–9 - _`.  The decoder consumes
four-character quantums; the final quantum may carry one or two `=` padding
characters.  (Go also strips `\r`/`\n` before decoding; no caller in this
code base produces them, and stripping only shortens the input, so they are
modelled as invalid characters.) -/

/-- The URL-safe base64 alphabet, by index. -/
def b64Char (n : Nat) : Char :=
  if n < 26 then Char.ofNat (65 + n)
  else if n < 52 then Char.ofNat (97 + (n - 26))
  else if n < 62 then Char.ofNat (48 + (n - 52))
  else if n = 62 then Char.ofNat 45
  else Char.ofNat 95

/-- Index of a URL-safe base64 alphabet character; `none` for anything
outside the alphabet (including `=`). -/
def b64Val (c : Char) : Option Nat :=
  if 65 ≤ c.toNat ∧ c.toNat ≤ 90 then some (c.toNat - 65)
  else if 97 ≤ c.toNat ∧ c.toNat ≤ 122 then some (c.toNat - 97 + 26)
  else if 48 ≤ c.toNat ∧ c.toNat ≤ 57 then some (c.toNat - 48 + 52)
  else if c.toNat = 45 then some 62
  else if c.toNat = 95 then some 63
  else none

/-- `base64.URLEncoding.EncodeToString`: three input bytes become four
alphabet characters; a final group of one (two) bytes becomes two (three)
characters followed by `==` (`=`). -/
def b64Encode : List Nat → List Char
  | [] => []
  | [b₁] =>
      [b64Char (b₁ / 4), b64Char (b₁ % 4 * 16), '=', '=']
  | [b₁, b₂] =>
      [b64Char (b₁ / 4), b64Char (b₁ % 4 * 16 + b₂ / 16), b64Char (b₂ % 16 * 4), '=']
  | b₁ :: b₂ :: b₃ :: rest =>
      b64Char (b₁ / 4) :: b64Char (b₁ % 4 * 16 + b₂ / 16) ::
      b64Char (b₂ % 16 * 4 + b₃ / 64) :: b64Char (b₃ % 64) :: b64Encode rest

/-- `base64.URLEncoding.DecodeString` on one four-character quantum list:
full quantums yield three bytes; the final quantum may be `cc==` (one byte)
or `ccc=` (two bytes).  A quantum that is not a multiple of four characters,
a padding character anywhere else, or a character outside the alphabet is a
`CorruptInputError`.  (Go's default decoder does not reject non-canonical
trailing bits, and neither does this model.) -/
def b64Decode : List Char → Option (List Nat)
  | [] => some []
  | c₁ :: c₂ :: c₃ :: c₄ :: rest =>
      if c₃ = '=' ∧ c₄ = '=' ∧ rest = [] then do
        let v₁ ← b64Val c₁
        let v₂ ← b64Val c₂
        pure [v₁ * 4 + v₂ / 16]
      else if c₄ = '=' ∧ rest = [] then do
        let v₁ ← b64Val c₁
        let v₂ ← b64Val c₂
        let v₃ ← b64Val c₃
        pure [v₁ * 4 + v₂ / 16, v₂ % 16 * 16 + v₃ / 4]
      else do
        let v₁ ← b64Val c₁
        let v₂ ← b64Val c₂
        let v₃ ← b64Val c₃
        let v₄ ← b64Val c₄
        let tl ← b64Decode rest
        pure ((v₁ * 4 + v₂ / 16) :: (v₂ % 16 * 16 + v₃ / 4) :: (v₃ % 4 * 64 + v₄) :: tl)
  | _ => none

/-! ## SHA-256 (Go `crypto/sha256`)

FIPS 180-4 SHA-256 over byte lists.  32-bit words are `Nat` reduced
`% 4294967296`; 64-bit message length is reduced `% 2 ^ 64`. -/

/-- Big-endian bytes of a 32-bit word. -/
def be32 (n : Nat) : List Nat :=
  [n / 16777216 % 256, n / 65536 % 256, n / 256 % 256, n % 256]

/-- Big-endian bytes of a 64-bit word. -/
def be64 (n : Nat) : List Nat :=
  be32 (n / 4294967296 % 4294967296) ++ be32 (n % 4294967296)

/-- Right rotation of a 32-bit word by `k < 32` bits. -/
def rotr32 (x k : Nat) : Nat :=
  x / 2 ^ k + x % 2 ^ k * 2 ^ (32 - k)

/-- SHA-256 working state: eight 32-bit words. -/
structure Hash8 where
  a : Nat
  b : Nat
  c : Nat
  d : Nat
  e : Nat
  f : Nat
  g : Nat
  h : Nat
deriving DecidableEq, Repr

/-- SHA-256 initial hash value. -/
def sha256InitH : Hash8 :=
  ⟨1779033703, 3144134277, 1013904242, 2773480762,
   1359893119, 2600822924, 528734635, 1541459225⟩

/-- SHA-256 round constants. -/
def sha256K : List Nat :=
  [1116352408, 1899447441, 3049323471, 3921009573, 961987163, 1508970993,
   2453635748, 2870763221, 3624381080, 310598401, 607225278, 1426881987,
   1925078388, 2162078206, 2614888103, 3248222580, 3835390401, 4022224774,
   264347078, 604807628, 770255983, 1249150122, 1555081692, 1996064986,
   2554220882, 2821834349, 2952996808, 3210313671, 3336571891, 3584528711,
   113926993, 338241895, 666307205, 773529912, 1294757372, 1396182291,
   1695183700, 1986661051, 2177026350, 2456956037, 2730485921, 2820302411,
   3259730800, 3345764771, 3516065817, 3600352804, 4094571909, 275423344,
   430227734, 506948616, 659060556, 883997877, 958139571, 1322822218,
   1537002063, 1747873779, 1955562222, 2024104815, 2227730452, 2361852424,
   2428436474, 2756734187, 3204031479, 3329325298]

/-- One step of the message-schedule extension: appends
`w[n-16] + σ₀(w[n-15]) + w[n-7] + σ₁(w[n-2])  (mod 2³²)`. -/
def scheduleStep (ws : List Nat) : List Nat :=
  let n := ws.length
  let w15 := ws.getD (n - 15) 0
  let w2 := ws.getD (n - 2) 0
  let s0 := (rotr32 w15 7) ^^^ (rotr32 w15 18) ^^^ (w15 / 2 ^ 3)
  let s1 := (rotr32 w2 17) ^^^ (rotr32 w2 19) ^^^ (w2 / 2 ^ 10)
  ws ++ [(ws.getD (n - 16) 0 + s0 + ws.getD (n - 7) 0 + s1) % 4294967296]

/-- Iterate the message-schedule extension `k` times. -/
def buildSchedule (ws : List Nat) : Nat → List Nat
  | 0 => ws
  | k + 1 => buildSchedule (scheduleStep ws) k

/-- One SHA-256 compression round with round constant `k` and schedule
word `w`. -/
def sha256Round (st : Hash8) (k w : Nat) : Hash8 :=
  let S1 := (rotr32 st.e 6) ^^^ (rotr32 st.e 11) ^^^ (rotr32 st.e 25)
  let ch := (st.e &&& st.f) ^^^ ((st.e ^^^ 4294967295) &&& st.g)
  let t1 := (st.h + S1 + ch + k + w) % 4294967296
  let S0 := (rotr32 st.a 2) ^^^ (rotr32 st.a 13) ^^^ (rotr32 st.a 22)
  let maj := (st.a &&& st.b) ^^^ (st.a &&& st.c) ^^^ (st.b &&& st.c)
  let t2 := (S0 + maj) % 4294967296
  ⟨(t1 + t2) % 4294967296, st.a, st.b, st.c, (st.d + t1) % 4294967296, st.e, st.f, st.g⟩

/-- The sixteen 32-bit big-endian words of one 64-byte chunk. -/
def chunkWords : List Nat → List Nat
  | b₁ :: b₂ :: b₃ :: b₄ :: rest =>
      (b₁ * 16777216 + b₂ * 65536 + b₃ * 256 + b₄) :: chunkWords rest
  | _ => []

/-- Compress one 64-byte chunk into the running hash value. -/
def sha256Compress (hv : Hash8) (chunk : List Nat) : Hash8 :=
  let ws := buildSchedule (chunkWords chunk) 48
  let st := (sha256K.zip ws).foldl (fun st kw => sha256Round st kw.1 kw.2) hv
  ⟨(hv.a + st.a) % 4294967296, (hv.b + st.b) % 4294967296,
   (hv.c + st.c) % 4294967296, (hv.d + st.d) % 4294967296,
   (hv.e + st.e) % 4294967296, (hv.f + st.f) % 4294967296,
   (hv.g + st.g) % 4294967296, (hv.h + st.h) % 4294967296⟩

/-- SHA-256 padding: a `0x80` byte, zeros to 56 mod 64, and the bit length
as a big-endian 64-bit word. -/
def sha256Pad (msg : List Nat) : List Nat :=
  msg ++ 0x80 :: List.replicate ((64 - (msg.length + 9) % 64) % 64) 0
      ++ be64 (msg.length * 8 % 2 ^ 64)

/-- Split a byte list into 64-byte chunks (`fuel` bounds the recursion by
the list length, which always suffices since each step consumes at least
one element). -/
def chunks64Go : Nat → List Nat → List (List Nat)
  | 0, _ => []
  | _, [] => []
  | fuel + 1, l => l.take 64 :: chunks64Go fuel (l.drop 64)

/-- Split a byte list into 64-byte chunks. -/
def chunks64 (l : List Nat) : List (List Nat) :=
  chunks64Go l.length l

/-- Go `sha256.Sum256` / `sha256.New` + `Write` + `Sum`: the 32-byte
SHA-256 digest of a byte list. -/
def sha256 (msg : List Nat) : List Nat :=
  let hv := (chunks64 (sha256Pad msg)).foldl sha256Compress sha256InitH
  be32 hv.a ++ be32 hv.b ++ be32 hv.c ++ be32 hv.d ++
  be32 hv.e ++ be32 hv.f ++ be32 hv.g ++ be32 hv.h

/-! ## HMAC (Go `crypto/hmac`)

`hmac.New(sha256.New, key)` with block size 64: a key longer than the block
is first hashed; the key is then zero-padded to the block size, and the MAC
of `msg` is `SHA-256((key ⊕ opad) ++ SHA-256((key ⊕ ipad) ++ msg))`.
Go's `hash.Hash` accumulates successive `Write`s, so a sequence of writes
MACs the concatenation of the written byte strings. -/

/-- The zero-padded (and, if oversized, pre-hashed) HMAC key. -/
def hmacKey (key : List Nat) : List Nat :=
  let k := if 64 < key.length then sha256 key else key
  k ++ List.replicate (64 - k.length) 0

/-- HMAC-SHA-256 of `msg` under `key`. -/
def hmacSha256 (key msg : List Nat) : List Nat :=
  let k := hmacKey key
  sha256 ((k.map (fun b => b ^^^ 0x5c)) ++ sha256 ((k.map (fun b => b ^^^ 0x36)) ++ msg))

/-! ## Time (Go `time`)

A `time.Time` is an instant — seconds since the Unix epoch plus a
nanosecond part — together with the zone offset (in minutes east of UTC;
every zone this code can produce has whole-minute offset) of the location
the instant is rendered in.  `time.Now()` is an explicit parameter wherever
the Go code reads the clock.  Note that `/` and `%` on `Int` in Lean are
Euclidean, which for the positive divisors used here coincides with the
floor division the calendar algorithms require. -/

/-- Go `time.Time`: an instant plus a rendering offset. -/
structure GoTime where
  sec : Int
  nanos : Nat
  offsetMin : Int
deriving DecidableEq, Repr

/-- The instant of a `time.Time` in nanoseconds since the epoch
(`Before`/`After`/`Equal` compare exactly this). -/
def absNanos (t : GoTime) : Int :=
  t.sec * 1000000000 + t.nanos

/-- Go `Time.UTC()`: same instant, rendered in UTC. -/
def goUTC (t : GoTime) : GoTime :=
  { t with offsetMin := 0 }

/-- Civil date of a day number (days since 1970-01-01, proleptic
Gregorian); the classic era-based closed form used by `time`'s `absDate`. -/
def civilFromDays (z : Int) : Int × Int × Int :=
  let u := z + 719468
  let era := u / 146097
  let doe := u % 146097
  let yoe := (doe - doe / 1460 + doe / 36524 - doe / 146096) / 365
  let doy := doe - (365 * yoe + yoe / 4 - yoe / 100)
  let mp := (5 * doy + 2) / 153
  let d := doy - (153 * mp + 2) / 5 + 1
  if mp < 10 then (yoe + era * 400, mp + 3, d) else (yoe + era * 400 + 1, mp - 9, d)

/-- Day number (days since 1970-01-01) of a civil date; inverse of
`civilFromDays` on valid dates. -/
def daysFromCivil (y m d : Int) : Int :=
  let y2 := if m ≤ 2 then y - 1 else y
  let era := y2 / 400
  let yoe := y2 - era * 400
  let doy := (153 * (if 2 < m then m - 3 else m + 9) + 2) / 5 + d - 1
  let doe := yoe * 365 + yoe / 4 - yoe / 100 + doy
  era * 146097 + doe - 719468

/-- Gregorian leap-year rule (Go `isLeap`). -/
def isLeapYear (y : Int) : Bool :=
  y % 4 = 0 && (y % 100 ≠ 0 || y % 400 = 0)

/-- Number of days in a month (Go `daysIn`). -/
def daysInMonth (y m : Int) : Int :=
  if m = 2 then (if isLeapYear y then 29 else 28)
  else if m = 4 ∨ m = 6 ∨ m = 9 ∨ m = 11 then 30
  else 31

/-- Rendering of the year field: zero-padded to four digits, full decimal
beyond that range (as Go layout `2006` behaves). -/
def yearChars (y : Int) : List Char :=
  if 0 ≤ y ∧ y ≤ 9999 then pad4 y.toNat else (toString y).toList

/-- RFC3339 zone suffix: `Z` for offset zero, else `±hh:mm`. -/
def offsetChars (off : Int) : List Char :=
  if off = 0 then ['Z']
  else (if off < 0 then '-' else '+') ::
    pad2 (off.natAbs / 60) ++ ':' :: pad2 (off.natAbs % 60)

/-- Go `Time.Format(time.RFC3339)`: `yyyy-mm-ddThh:mm:ss` in the time's
own offset, followed by the zone suffix.  The layout has no fractional
second field, so the nanosecond part is not rendered. -/
def rfc3339Format (t : GoTime) : List Char :=
  let lsec := t.sec + t.offsetMin * 60
  let day := lsec / 86400
  let sod := (lsec % 86400).toNat
  let ymd := civilFromDays day
  yearChars ymd.1 ++ '-' :: pad2 ymd.2.1.toNat ++ '-' :: pad2 ymd.2.2.toNat ++
  'T' :: pad2 (sod / 3600) ++ ':' :: pad2 (sod % 3600 / 60) ++ ':' :: pad2 (sod % 60) ++
  offsetChars t.offsetMin

/-- Fractional-second part accepted after the seconds field: a dot and at
least one digit.  Go discards the parsed value (leaving zero nanoseconds)
when more than nine digits are present.  Returns the nanosecond count and
the rest of the input; `none` means no fraction present. -/
def parseFraction (s : List Char) : Option (Nat × List Char) :=
  match s with
  | '.' :: c :: rest =>
      if isDigit c then
        let ds := c :: rest.takeWhile isDigit
        let tl := rest.dropWhile isDigit
        let n := ds.foldl (fun acc d => acc * 10 + digitVal d) 0
        some (if ds.length ≤ 9 then n * 10 ^ (9 - ds.length) else 0, tl)
      else none
  | _ => none

/-- RFC3339 zone suffix parse: `Z` (UTC) or `±hh:mm` with `hh ≤ 23`,
`mm ≤ 59`; anything else — including trailing characters — fails.  Returns
the offset in minutes. -/
def parseZone (s : List Char) : Option Int :=
  match s with
  | ['Z'] => some 0
  | [sgn, h₁, h₂, ':', m₁, m₂] =>
      if (sgn = '+' ∨ sgn = '-') ∧ isDigit h₁ ∧ isDigit h₂ ∧ isDigit m₁ ∧ isDigit m₂ then
        let hh := digitVal h₁ * 10 + digitVal h₂
        let mm := digitVal m₁ * 10 + digitVal m₂
        if hh ≤ 23 ∧ mm ≤ 59 then
          some (if sgn = '-' then -(hh * 60 + mm : Int) else (hh * 60 + mm : Int))
        else none
      else none
  | _ => none

/-- Go `time.Parse(time.RFC3339, s)` (the strict RFC3339 path used for this
layout): fixed-position digits and separators, range validation of every
field including the day-of-month against the month length, optional
fractional seconds, and a zone suffix.  Produces the parsed instant with
the parsed offset as its rendering offset. -/
def rfc3339Parse (s : List Char) : Option GoTime :=
  match s with
  | y₁ :: y₂ :: y₃ :: y₄ :: '-' :: m₁ :: m₂ :: '-' :: d₁ :: d₂ :: 'T' ::
    h₁ :: h₂ :: ':' :: mi₁ :: mi₂ :: ':' :: s₁ :: s₂ :: rest =>
      if isDigit y₁ ∧ isDigit y₂ ∧ isDigit y₃ ∧ isDigit y₄ ∧ isDigit m₁ ∧ isDigit m₂ ∧
         isDigit d₁ ∧ isDigit d₂ ∧ isDigit h₁ ∧ isDigit h₂ ∧ isDigit mi₁ ∧ isDigit mi₂ ∧
         isDigit s₁ ∧ isDigit s₂ then
        let y := ((digitVal y₁ * 10 + digitVal y₂) * 10 + digitVal y₃) * 10 + digitVal y₄
        let mo := digitVal m₁ * 10 + digitVal m₂
        let d := digitVal d₁ * 10 + digitVal d₂
        let hh := digitVal h₁ * 10 + digitVal h₂
        let mi := digitVal mi₁ * 10 + digitVal mi₂
        let ss := digitVal s₁ * 10 + digitVal s₂
        if 1 ≤ mo ∧ mo ≤ 12 ∧ 1 ≤ d ∧ (d : Int) ≤ daysInMonth y mo ∧
           hh ≤ 23 ∧ mi ≤ 59 ∧ ss ≤ 59 then
          let fr := parseFraction rest
          let ns := (fr.map Prod.fst).getD 0
          let rest₂ := (fr.map Prod.snd).getD rest
          match parseZone rest₂ with
          | some off =>
              some ⟨daysFromCivil y mo d * 86400 + hh * 3600 + mi * 60 + ss - off * 60, ns, off⟩
          | none => none
        else none
      else none
  | _ => none

/-! ## UUID (`github.com/google/uuid`)

A `uuid.UUID` is a 16-byte array; its zero value is sixteen zero bytes.
`UUID.String()` renders the canonical lowercase `8-4-4-4-12` form;
`uuid.Parse` is modelled on the canonical 36-character form (hex digits of
either case), the only form this repository ever produces. -/

/-- A `uuid.UUID` value: its sixteen bytes. -/
structure GoUUID where
  bytes : List Nat
deriving DecidableEq, Repr

/-- The zero `uuid.UUID` (Go zero value). -/
def zeroUUID : GoUUID :=
  ⟨List.replicate 16 0⟩

/-- `UUID.String()`: canonical lowercase hex groups of 4-2-2-2-6 bytes
separated by hyphens. -/
def uuidString (u : GoUUID) : List Char :=
  hexEncode (u.bytes.take 4) ++ '-' ::
  hexEncode ((u.bytes.drop 4).take 2) ++ '-' ::
  hexEncode ((u.bytes.drop 6).take 2) ++ '-' ::
  hexEncode ((u.bytes.drop 8).take 2) ++ '-' ::
  hexEncode (u.bytes.drop 10)

/-- `uuid.Parse` on the canonical form: 36 characters with hyphens at
positions 8, 13, 18 and 23 and hex digits elsewhere. -/
def uuidParse (s : List Char) : Option GoUUID :=
  if s.length = 36 ∧ s.getD 8 ' ' = '-' ∧ s.getD 13 ' ' = '-' ∧
     s.getD 18 ' ' = '-' ∧ s.getD 23 ' ' = '-' then
    (hexDecode (s.take 8 ++ (s.drop 9).take 4 ++ (s.drop 14).take 4 ++
                (s.drop 19).take 4 ++ s.drop 24)).map GoUUID.mk
  else none

/-! ## JSON (Go `encoding/json`, restricted to the token envelope)

`json.Marshal` of the `tokenJSON` struct emits the four fields in
declaration order with their tag names; `json.Decoder.Decode` into a
`tokenJSON` accepts one JSON value — `null` (a no-op) or an object whose
known fields must be strings (or `null`), with unknown fields skipped,
later duplicates winning, and field names matched case-insensitively (the
exact-match preference never differs here since the four tags are distinct
case-insensitively).  Input after the first value is ignored by
`Decoder.Decode`. -/

/-- The wire form of `tokenJSON`: four string fields. -/
structure TokenJSON where
  apiKeyID : List Char
  timestamp : List Char
  signingAlgo : List Char
  signature : List Char
deriving DecidableEq, Repr

/-- The zero `tokenJSON` (all fields empty), the decoder's starting
value. -/
def emptyTokenJSON : TokenJSON :=
  ⟨[], [], [], []⟩

/-- Go `encoding/json` string escaping: quote, backslash, the common
control escapes, `\u00xx` for other control characters, and the HTML-safe
escapes for `<`, `>` and `&`. -/
def jsonEscapeChar (c : Char) : List Char :=
  if c = '"' then ['\\', '"']
  else if c = '\\' then ['\\', '\\']
  else if c = '\n' then ['\\', 'n']
  else if c = '\r' then ['\\', 'r']
  else if c = '\t' then ['\\', 't']
  else if c.toNat < 32 then
    ['\\', 'u', '0', '0', hexDigitChar (c.toNat / 16), hexDigitChar (c.toNat % 16)]
  else if c = '<' then ['\\', 'u', '0', '0', '3', 'c']
  else if c = '>' then ['\\', 'u', '0', '0', '3', 'e']
  else if c = '&' then ['\\', 'u', '0', '0', '2', '6']
  else [c]

/-- A JSON string literal: quoted, escaped. -/
def jsonStr (s : List Char) : List Char :=
  '"' :: s.flatMap jsonEscapeChar ++ ['"']

/-- `json.Marshal(&tokenJSON{...})`: the object with the four tagged
fields in declaration order. -/
def marshalTokenJSON (t : TokenJSON) : List Char :=
  ("\x7b\"apiKeyID\":".toList) ++ jsonStr t.apiKeyID ++
  (",\"timestamp\":".toList) ++ jsonStr t.timestamp ++
  (",\"algo\":".toList) ++ jsonStr t.signingAlgo ++
  (",\"signature\":".toList) ++ jsonStr t.signature ++ ['}']

/-- JSON insignificant whitespace. -/
def jsonSkipWs (s : List Char) : List Char :=
  s.dropWhile (fun c => c = ' ' ∨ c = '\t' ∨ c = '\n' ∨ c = '\r')

/-- Value of a hex digit in a `\uXXXX` escape (either case). -/
def jsonHex (c : Char) : Option Nat :=
  hexDigitVal c

/-- The character produced by a single-character JSON escape, if the
escape is legal. -/
def jsonEscapeVal (e : Char) : Option Char :=
  if e = '"' then some '"'
  else if e = '\\' then some '\\'
  else if e = '/' then some '/'
  else if e = 'b' then some (Char.ofNat 8)
  else if e = 'f' then some (Char.ofNat 12)
  else if e = 'n' then some '\n'
  else if e = 'r' then some '\r'
  else if e = 't' then some '\t'
  else none

/-- Parse the body of a JSON string literal after the opening quote;
returns the decoded characters and the input after the closing quote. -/
def parseJSONStringBody : List Char → Option (List Char × List Char)
  | [] => none
  | c :: rest =>
      if c = '"' then some ([], rest)
      else if c = '\\' then
        match rest with
        | [] => none
        | e :: rest₁ =>
            if e = 'u' then
              match rest₁ with
              | h₁ :: h₂ :: h₃ :: h₄ :: rest₂ => do
                  let v₁ ← jsonHex h₁
                  let v₂ ← jsonHex h₂
                  let v₃ ← jsonHex h₃
                  let v₄ ← jsonHex h₄
                  let p ← parseJSONStringBody rest₂
                  pure (Char.ofNat (((v₁ * 16 + v₂) * 16 + v₃) * 16 + v₄) :: p.1, p.2)
              | _ => none
            else do
              let d ← jsonEscapeVal e
              let p ← parseJSONStringBody rest₁
              pure (d :: p.1, p.2)
      else
        (parseJSONStringBody rest).map (fun p => (c :: p.1, p.2))

/-- Parse a JSON string literal (with its opening quote). -/
def parseJSONString (s : List Char) : Option (List Char × List Char) :=
  match s with
  | '"' :: rest => parseJSONStringBody rest
  | _ => none

mutual

/-- Skip one JSON value (used for unknown object fields); `fuel` bounds
the recursion by the input length. -/
def skipJSONValue (fuel : Nat) (s : List Char) : Option (List Char) :=
  match fuel with
  | 0 => none
  | fuel + 1 =>
    match jsonSkipWs s with
    | '"' :: rest => (parseJSONStringBody rest).map Prod.snd
    | 'n' :: 'u' :: 'l' :: 'l' :: rest => some rest
    | 't' :: 'r' :: 'u' :: 'e' :: rest => some rest
    | 'f' :: 'a' :: 'l' :: 's' :: 'e' :: rest => some rest
    | '{' :: rest => skipJSONMembers fuel (jsonSkipWs rest) true
    | '[' :: rest => skipJSONElems fuel (jsonSkipWs rest) true
    | c :: rest =>
        if isDigit c ∨ c = '-' then
          some ((c :: rest).dropWhile
            (fun c => isDigit c ∨ c = '-' ∨ c = '+' ∨ c = '.' ∨ c = 'e' ∨ c = 'E'))
        else none
    | [] => none

/-- Skip the members of a JSON object after `{`. -/
def skipJSONMembers (fuel : Nat) (s : List Char) (first : Bool) : Option (List Char) :=
  match fuel with
  | 0 => none
  | fuel + 1 =>
    match s, first with
    | '}' :: rest, true => some rest
    | s, _ => do
        let p ← parseJSONString (jsonSkipWs s)
        let s₂ := jsonSkipWs p.2
        match s₂ with
        | ':' :: s₃ => do
            let s₄ ← skipJSONValue fuel s₃
            match jsonSkipWs s₄ with
            | ',' :: s₅ => skipJSONMembers fuel (jsonSkipWs s₅) false
            | '}' :: s₅ => some s₅
            | _ => none
        | _ => none

/-- Skip the elements of a JSON array after `[`. -/
def skipJSONElems (fuel : Nat) (s : List Char) (first : Bool) : Option (List Char) :=
  match fuel with
  | 0 => none
  | fuel + 1 =>
    match s, first with
    | ']' :: rest, true => some rest
    | s, _ => do
        let s₂ ← skipJSONValue fuel s
        match jsonSkipWs s₂ with
        | ',' :: s₃ => skipJSONElems fuel s₃ false
        | ']' :: s₃ => some s₃
        | _ => none

end

/-- ASCII lowercasing of a character (Go `strings.ToLower` on ASCII). -/
def lowerChar (c : Char) : Char :=
  if 65 ≤ c.toNat ∧ c.toNat ≤ 90 then Char.ofNat (c.toNat + 32) else c

/-- ASCII lowercasing of a string. -/
def lowerStr (s : List Char) : List Char :=
  s.map lowerChar

/-- Store a decoded field value into the `tokenJSON` being built, matching
the field tag case-insensitively; unknown names leave the struct
unchanged. -/
def setTokenField (acc : TokenJSON) (key value : List Char) : TokenJSON :=
  if lowerStr key = ("apikeyid".toList) then { acc with apiKeyID := value }
  else if lowerStr key = ("timestamp".toList) then { acc with timestamp := value }
  else if lowerStr key = ("algo".toList) then { acc with signingAlgo := value }
  else if lowerStr key = ("signature".toList) then { acc with signature := value }
  else acc

/-- Is this key one of the four known field tags (case-insensitively)? -/
def isKnownTokenField (key : List Char) : Bool :=
  lowerStr key = ("apikeyid".toList) ∨ lowerStr key = ("timestamp".toList) ∨
  lowerStr key = ("algo".toList) ∨ lowerStr key = ("signature".toList)

mutual

/-- Parse the members of the token object after `{`, accumulating fields;
known fields must hold a string (or `null`, a no-op); unknown fields hold
any JSON value and are skipped. -/
def parseTokenMembers (fuel : Nat) (acc : TokenJSON) (s : List Char) (first : Bool) :
    Option (TokenJSON × List Char) :=
  match fuel with
  | 0 => none
  | fuel + 1 =>
    match jsonSkipWs s, first with
    | '}' :: rest, true => some (acc, rest)
    | s₁, _ => do
        let k ← parseJSONString s₁
        match jsonSkipWs k.2 with
        | ':' :: s₂ =>
            if isKnownTokenField k.1 then
              match jsonSkipWs s₂ with
              | 'n' :: 'u' :: 'l' :: 'l' :: s₃ => parseTokenTail fuel acc s₃
              | s₃ => do
                  let v ← parseJSONString s₃
                  parseTokenTail fuel (setTokenField acc k.1 v.1) v.2
            else do
              let s₃ ← skipJSONValue fuel s₂
              parseTokenTail fuel acc s₃
        | _ => none

/-- After one member: a comma continues the object, a brace closes it. -/
def parseTokenTail (fuel : Nat) (acc : TokenJSON) (s : List Char) :
    Option (TokenJSON × List Char) :=
  match fuel with
  | 0 => none
  | fuel + 1 =>
    match jsonSkipWs s with
    | ',' :: s₂ => parseTokenMembers fuel acc s₂ false
    | '}' :: s₂ => some (acc, s₂)
    | _ => none

end

/-- `json.NewDecoder(bytes.NewReader(content)).Decode(&tokenJSON{})`:
decode the first JSON value into a `tokenJSON`; `null` leaves the zero
value; anything but an object or `null` is an error; input after the first
value is ignored. -/
def jsonDecodeToken (s : List Char) : Option TokenJSON :=
  match jsonSkipWs s with
  | 'n' :: 'u' :: 'l' :: 'l' :: _ => some emptyTokenJSON
  | '{' :: rest => (parseTokenMembers (s.length + 1) emptyTokenJSON rest true).map Prod.fst
  | _ => none

/-! ## The bearer token (`bearer_token.go`) -/

/-- `BearerToken`: key identifier, timestamp and signature bytes. -/
structure BearerToken where
  apiKeyID : GoUUID
  timestamp : GoTime
  signature : List Nat
deriving DecidableEq, Repr

/-- The Go zero `time.Time`: 0001-01-01T00:00:00 UTC as an instant. -/
def goZeroTime : GoTime :=
  ⟨-62135596800, 0, 0⟩

/-- The Go zero `BearerToken` (`&BearerToken{}`). -/
def emptyBearerToken : BearerToken :=
  ⟨zeroUUID, goZeroTime, []⟩

/-- `maxPackedLen`. -/
def maxPackedLen : Nat := 1024

/-- `BearerToken.sign`: HMAC-SHA-256 keyed by the secret over the two
successive writes — the UTF-8 bytes of the RFC3339 rendering of the
timestamp in UTC, then the content bytes (`hash.Hash` accumulates writes,
so this is the MAC of their concatenation); a `nil` content slice writes
nothing, i.e. is the empty byte string. -/
def tokenSignBytes (t : BearerToken) (secret content : List Nat) : List Nat :=
  hmacSha256 secret (asciiBytes (rfc3339Format (goUTC t.timestamp)) ++ content)

/-- `BearerToken.Sign`: store the computed signature on the receiver (the
Go method always returns a `nil` error). -/
def tokenSignOp (t : BearerToken) (secret content : List Nat) : BearerToken :=
  { t with signature := tokenSignBytes t secret content }

/-- `subtle.ConstantTimeCompare(a, b) == 1`: the byte slices have equal
length and equal contents. -/
def constantTimeEq (a b : List Nat) : Bool :=
  a = b

/-- The two `Verify` failures (`errors.New("illegal signature")`,
`errors.Errorf("illegal timestamp")`). -/
inductive VerifyErr where
  | illegalSignature
  | illegalTimestamp
deriving DecidableEq, Repr

/-- `BearerToken.Verify`: recompute the signature and compare it in
constant time; then reject a timestamp outside the inclusive window
`[now − maxClockSkew, now + maxClockSkew]` (`Before`/`After` compare
instants; `maxClockSkew` is in nanoseconds).  `time.Now()` is the explicit
`now` parameter.  `none` means success. -/
def tokenVerify (t : BearerToken) (secret content : List Nat) (maxClockSkew : Int)
    (now : GoTime) : Option VerifyErr :=
  if constantTimeEq t.signature (tokenSignBytes t secret content) then
    if absNanos (goUTC t.timestamp) < absNanos now - maxClockSkew ∨
       absNanos now + maxClockSkew < absNanos (goUTC t.timestamp) then
      some .illegalTimestamp
    else
      none
  else
    some .illegalSignature

/-- `BearerToken.Pack`: URL-safe base64 of the JSON envelope holding the
canonical UUID string, the RFC3339 rendering of the timestamp (in the
timestamp's own offset — the Go code does not call `UTC()` here), the
fixed algorithm tag, and the lowercase-hex signature.  (`json.Marshal`
cannot fail on this struct, so the Go error branch is dead and `Pack` is
total.) -/
def packToken (t : BearerToken) : List Char :=
  b64Encode (asciiBytes (marshalTokenJSON
    ⟨uuidString t.apiKeyID, rfc3339Format t.timestamp,
     ("HMAC-SHA256".toList), hexEncode t.signature⟩))

/-- The `Unpack` failures, in the order the Go code can produce them. -/
inductive UnpackErr where
  | oversized (len : Nat)
  | badBase64
  | badJSON
  | badKeyID
  | badTimestamp
  | unsupportedAlgo (tag : List Char)
  | badSignatureHex
deriving DecidableEq, Repr

/-- ASCII whitespace trimmed by `strings.TrimSpace` (all whitespace in
this development is ASCII). -/
def isSpaceChar (c : Char) : Bool :=
  c = ' ' ∨ c = '\t' ∨ c = '\n' ∨ c = Char.ofNat 11 ∨ c = Char.ofNat 12 ∨ c = '\r'

/-- `strings.TrimSpace`. -/
def trimSpace (s : List Char) : List Char :=
  ((s.dropWhile isSpaceChar).reverse.dropWhile isSpaceChar).reverse

/-- `BearerToken.Unpack`: length bound on the (still encoded) input before
any decoding; base64 decode; JSON decode; UUID parse; timestamp parse;
algorithm-tag check (trimmed, case-insensitive); signature hex decode.
The receiver is assigned only after every step has succeeded, so the
returned token equals the receiver `t` on every error path. -/
def unpackToken (t : BearerToken) (packed : List Char) : BearerToken × Option UnpackErr :=
  if maxPackedLen < packed.length then (t, some (.oversized packed.length))
  else
    match b64Decode packed with
    | none => (t, some .badBase64)
    | some tokenContent =>
      match jsonDecodeToken (tokenContent.map Char.ofNat) with
      | none => (t, some .badJSON)
      | some token =>
        match uuidParse token.apiKeyID with
        | none => (t, some .badKeyID)
        | some apiKeyID =>
          match rfc3339Parse token.timestamp with
          | none => (t, some .badTimestamp)
          | some timestamp =>
            if lowerStr (trimSpace token.signingAlgo) ≠ ("hmac-sha256".toList) then
              (t, some (.unsupportedAlgo token.signingAlgo))
            else
              match hexDecode token.signature with
              | none => (t, some .badSignatureHex)
              | some sig => (⟨apiKeyID, timestamp, sig⟩, none)

/-! ## The client (`client.go`) -/

/-- The fields of `Client` that the signing and webhook paths read: the
parsed key identifier, the decoded key secret, and the clock-skew
tolerance (nanoseconds). -/
structure GoClient where
  keyID : GoUUID
  keySec : List Nat
  maxTimeDiff : Int
deriving Repr

/-- An outbound HTTP request as the signing step sees it: method, URL,
headers (canonical name, values) and an optional body (the byte string a
single-consumption body stream would yield; `none` for `nil` /
`http.NoBody`). -/
structure GoRequest where
  method : List Char
  url : List Char
  headers : List (List Char × List (List Char))
  body : Option (List Nat)
deriving Repr

/-- `http.Header.Set`: replace every value of the named header with the
single given value. -/
def headerSet (hs : List (List Char × List (List Char))) (name value : List Char) :
    List (List Char × List (List Char)) :=
  (name, [value]) :: hs.filter (fun h => h.1 ≠ name)

/-- `http.Header.Values` (on already-canonical names). -/
def headerValues (hs : List (List Char × List (List Char))) (name : List Char) :
    List (List Char) :=
  ((hs.find? (fun h => h.1 = name)).map Prod.snd).getD []

/-- `Client.sign`: build a token from the client's key identifier and the
current time; read the body bytes (empty if absent) and restore them as
the new body; sign over exactly those bytes; pack; and set the
`Authorization` header to the single value `Bearer <packed>`.  (The Go
error returns — body read failure and `Pack` failure — cannot occur in
this model of a byte-string body, so `sign` is total.) -/
def clientSign (c : GoClient) (req : GoRequest) (now : GoTime) : GoRequest :=
  let token : BearerToken := ⟨c.keyID, now, []⟩
  let reqBuf : List Nat := (req.body).getD []
  let signed := tokenSignOp token c.keySec reqBuf
  let packed := packToken signed
  { req with
    body := req.body,
    headers := headerSet req.headers ("Authorization".toList)
      (("Bearer ".toList) ++ packed) }

/-! ## The webhook handler (`webhook.go`) -/

/-- What the webhook handler does to the response: either a status code
with the plain-text body written after it, or — on the foreign-signer
branch — a status code followed by a panic (`err.Error()` on the `err`
of `io.ReadAll`, which is necessarily `nil` at that point), so the
explanatory body is never written. -/
inductive WebhookOutcome where
  | response (status : Nat) (bodyText : List Char)
  | panicNilError (status : Nat)
deriving DecidableEq, Repr

/-- The text rendered for an `Unpack` failure (wrapped causes abbreviated
to the wrap message; no claim inspects these strings). -/
def unpackErrText : UnpackErr → List Char
  | .oversized _ => ("bearer token string is too long".toList)
  | .badBase64 => ("unable to parse the bearer token".toList)
  | .badJSON => ("unable to parse the JSON content of the bearer token".toList)
  | .badKeyID => ("unable to parse the API key ID".toList)
  | .badTimestamp => ("unable to parse the timestamp value".toList)
  | .unsupportedAlgo _ => ("unsupported signing algorithm".toList)
  | .badSignatureHex => ("unable to parse the signature value".toList)

/-- The text of a `Verify` failure. -/
def verifyErrText : VerifyErr → List Char
  | .illegalSignature => ("illegal signature".toList)
  | .illegalTimestamp => ("illegal timestamp".toList)

/-- `Client.WebhookHandler`: the gate sequence of the returned handler.
`authHeaders` is `r.Header.Values("Authorization")`, `body` the request
body bytes (reading a byte-string body cannot fail, so the 500
read-failure branch is dead), `now` the clock at the `Verify` call.
Payload decoding (`json.Unmarshal` into `Transaction`) and the business
callback are abstract parameters: `parseTrx` returns `none` where
`Unmarshal` errors, `callback` returns `some text` where the business
handler errors. -/
def webhookHandler {τ : Type} (c : GoClient) (parseTrx : List Nat → Option τ)
    (callback : τ → Option (List Char)) (authHeaders : List (List Char))
    (body : List Nat) (now : GoTime) : WebhookOutcome :=
  if authHeaders.length = 0 then
    .response 401 ("Missing `Authorization` header.".toList)
  else if 1 < authHeaders.length then
    .response 400 ("Multiple `Authorization` header.".toList)
  else
    let hdr := trimSpace (authHeaders.getD 0 [])
    if hdr.length < 7 then
      .response 400 ("Incomplete `Authorization` header.".toList)
    else if lowerStr (hdr.take 7) ≠ ("bearer ".toList) then
      .response 400 ("Invalid `Authorization` token type.".toList)
    else
      let v := trimSpace (hdr.drop 7)
      if v.length = 0 then
        .response 400 ("Missing bearer token.".toList)
      else
        match unpackToken emptyBearerToken v with
        | (_, some e) =>
            .response 400 (("Invalid bearer token: ".toList) ++ unpackErrText e)
        | (token, none) =>
          match tokenVerify token c.keySec body c.maxTimeDiff now with
          | some e =>
              .response 403
                (("Unable to verify the request signature: ".toList) ++ verifyErrText e)
          | none =>
            if token.apiKeyID ≠ c.keyID then
              .panicNilError 403
            else
              match parseTrx body with
              | none => .response 400 ("Invalid request payload: ".toList)
              | some trx =>
                match callback trx with
                | some msg =>
                    .response 500
                      (("An error occurred while processing the webhook notification: ".toList)
                        ++ msg)
                | none =>
                    .response 202
                      ("The webhook notification has been processed successfully.".toList)

/-! ## Spec-side definitions and witness inputs -/

/-- Characters that JSON-escape to themselves and are plain ASCII: all
four envelope fields consist only of such characters. -/
def jsonPlainChar (c : Char) : Bool :=
  32 ≤ c.toNat && c.toNat < 127 && c ≠ '"' && c ≠ '\\' && c ≠ '<' && c ≠ '>' && c ≠ '&'

/-- The URL-safe base64 alphabet together with the padding
character, as byte-value ranges. -/
def b64UrlChar (c : Char) : Bool :=
  (65 ≤ c.toNat && c.toNat ≤ 90) || (97 ≤ c.toNat && c.toNat ≤ 122) ||
  (48 ≤ c.toNat && c.toNat ≤ 57) || c.toNat = 45 || c.toNat = 95 || c.toNat = 61

/-- The signature the specification describes: HMAC-SHA-256 keyed by
the secret over the RFC3339 UTC timestamp bytes followed by the body. -/
def specSignature (secret body : List Nat) (ts : GoTime) : List Nat :=
  hmacSha256 secret (asciiBytes (rfc3339Format (goUTC ts)) ++ body)

/-- The packed form the specification describes: the envelope with the
timestamp rendered in UTC. -/
def specPackToken (t : BearerToken) : List Char :=
  b64Encode (asciiBytes (marshalTokenJSON
    ⟨uuidString t.apiKeyID, rfc3339Format (goUTC t.timestamp),
     ("HMAC-SHA256".toList), hexEncode t.signature⟩))

/-- A sample instant used by concrete witnesses. -/
def demoTime : GoTime := ⟨0, 0, 0⟩

/-- A sample signature: the MAC a signer would store, left symbolic. -/
def demoSig : List Nat := tokenSignBytes ⟨zeroUUID, demoTime, []⟩ [] []

/-- A sample signed token for concrete witnesses. -/
def demoToken : BearerToken := ⟨zeroUUID, demoTime, demoSig⟩

/-- A sample client whose key identifier differs from `demoToken`. -/
def demoClient : GoClient := ⟨⟨List.replicate 15 0 ++ [1]⟩, [], 0⟩

/-! ## Basic lemmas: bytes, hex, base64, digests -/

/-- Every element of the list is a byte value. -/
def allBytes (bs : List Nat) : Prop :=
  ∀ b ∈ bs, b < 256

theorem hexDigitVal_hexDigitChar : ∀ n < 16, hexDigitVal (hexDigitChar n) = some n := by
  decide

theorem hexEncode_cons (b : Nat) (tl : List Nat) :
    hexEncode (b :: tl) = hexDigitChar (b / 16) :: hexDigitChar (b % 16) :: hexEncode tl := by
  simp [hexEncode]

theorem hexDecode_hexEncode (bs : List Nat) (h : allBytes bs) :
    hexDecode (hexEncode bs) = some bs := by
  induction bs with
  | nil => rfl
  | cons b tl ih =>
      have hb : b < 256 := h b (by simp)
      have htl : allBytes tl := fun x hx => h x (by simp [hx])
      have h1 := hexDigitVal_hexDigitChar (b / 16) (by omega)
      have h2 := hexDigitVal_hexDigitChar (b % 16) (by omega)
      rw [hexEncode_cons]
      simp only [hexDecode, h1, h2, ih htl, Option.bind_eq_bind, Option.some_bind,
        Option.pure_def, Option.some.injEq, List.cons.injEq, and_true]
      omega

theorem b64Val_b64Char : ∀ n < 64, b64Val (b64Char n) = some n := by
  decide

theorem b64Char_ne_pad : ∀ n < 64, b64Char n ≠ '=' := by
  decide

theorem b64Decode_b64Encode (bs : List Nat) (h : allBytes bs) :
    b64Decode (b64Encode bs) = some bs := by
  induction bs using b64Encode.induct with
  | case1 => rfl
  | case2 b₁ =>
      have hb₁ : b₁ < 256 := h b₁ (by simp)
      have h1 := b64Val_b64Char (b₁ / 4) (by omega)
      have h2 := b64Val_b64Char (b₁ % 4 * 16) (by omega)
      simp only [b64Encode, b64Decode]
      rw [if_pos (by simp)]
      simp only [h1, h2, Option.bind_eq_bind, Option.some_bind, Option.pure_def,
        Option.some.injEq, List.cons.injEq, and_true]
      omega
  | case3 b₁ b₂ =>
      have hb₁ : b₁ < 256 := h b₁ (by simp)
      have hb₂ : b₂ < 256 := h b₂ (by simp)
      have h1 := b64Val_b64Char (b₁ / 4) (by omega)
      have h2 := b64Val_b64Char (b₁ % 4 * 16 + b₂ / 16) (by omega)
      have h3 := b64Val_b64Char (b₂ % 16 * 4) (by omega)
      have hne := b64Char_ne_pad (b₂ % 16 * 4) (by omega)
      simp only [b64Encode, b64Decode]
      rw [if_neg (by simp [hne]), if_pos (by simp)]
      simp only [h1, h2, h3, Option.bind_eq_bind, Option.some_bind, Option.pure_def,
        Option.some.injEq, List.cons.injEq, and_true]
      constructor
      · omega
      · omega
  | case4 b₁ b₂ b₃ rest ih =>
      have hb₁ : b₁ < 256 := h b₁ (by simp)
      have hb₂ : b₂ < 256 := h b₂ (by simp)
      have hb₃ : b₃ < 256 := h b₃ (by simp)
      have hrest : allBytes rest := fun x hx => h x (by simp [hx])
      have h1 := b64Val_b64Char (b₁ / 4) (by omega)
      have h2 := b64Val_b64Char (b₁ % 4 * 16 + b₂ / 16) (by omega)
      have h3 := b64Val_b64Char (b₂ % 16 * 4 + b₃ / 64) (by omega)
      have h4 := b64Val_b64Char (b₃ % 64) (by omega)
      have hne₃ := b64Char_ne_pad (b₂ % 16 * 4 + b₃ / 64) (by omega)
      have hne₄ := b64Char_ne_pad (b₃ % 64) (by omega)
      simp only [b64Encode, b64Decode]
      rw [if_neg (by simp [hne₃]), if_neg (by simp [hne₄])]
      simp only [h1, h2, h3, h4, ih hrest, Option.bind_eq_bind, Option.some_bind,
        Option.pure_def, Option.some.injEq, List.cons.injEq, and_true]
      refine ⟨by omega, by omega, by omega⟩

theorem b64Encode_length (bs : List Nat) :
    (b64Encode bs).length = (bs.length + 2) / 3 * 4 := by
  induction bs using b64Encode.induct with
  | case1 => rfl
  | case2 b₁ => simp [b64Encode]
  | case3 b₁ b₂ => simp [b64Encode]
  | case4 b₁ b₂ b₃ rest ih =>
      simp only [b64Encode, List.length_cons, ih]
      omega

theorem b64Decode_length (s : List Char) (bs : List Nat) (h : b64Decode s = some bs) :
    4 * bs.length ≤ 3 * s.length := by
  induction s using b64Decode.induct generalizing bs with
  | case1 =>
      simp only [b64Decode, Option.some.injEq] at h
      subst h; simp
  | case2 c₁ c₂ c₃ c₄ rest hpad =>
      rw [b64Decode.eq_2, if_pos hpad] at h
      rcases hpad with ⟨rfl, rfl, rfl⟩
      cases hv₁ : b64Val c₁ <;> cases hv₂ : b64Val c₂ <;>
        simp only [hv₁, hv₂, Option.bind_eq_bind, Option.some_bind, Option.none_bind,
          Option.pure_def, Option.some.injEq, reduceCtorEq] at h
      subst h; simp
  | case3 c₁ c₂ c₃ c₄ rest hpad₁ hpad₂ =>
      rw [b64Decode.eq_2, if_neg hpad₁, if_pos hpad₂] at h
      rcases hpad₂ with ⟨rfl, rfl⟩
      cases hv₁ : b64Val c₁ <;> cases hv₂ : b64Val c₂ <;> cases hv₃ : b64Val c₃ <;>
        simp only [hv₁, hv₂, hv₃, Option.bind_eq_bind, Option.some_bind, Option.none_bind,
          Option.pure_def, Option.some.injEq, reduceCtorEq] at h
      subst h; simp
  | case4 c₁ c₂ c₃ c₄ rest hpad₁ hpad₂ ih =>
      rw [b64Decode.eq_2, if_neg hpad₁, if_neg hpad₂] at h
      cases hv₁ : b64Val c₁ <;> cases hv₂ : b64Val c₂ <;> cases hv₃ : b64Val c₃ <;>
        cases hv₄ : b64Val c₄ <;>
        simp only [hv₁, hv₂, hv₃, hv₄, Option.bind_eq_bind, Option.some_bind,
          Option.none_bind, Option.pure_def, reduceCtorEq] at h
      cases htl : b64Decode rest <;>
        simp only [htl, Option.some_bind, Option.none_bind, Option.some.injEq,
          reduceCtorEq] at h
      subst h
      have := ih _ htl
      simp only [List.length_cons]
      omega
  | case5 t h1 h2 =>
      rcases t with _ | ⟨a, _ | ⟨b, _ | ⟨c, _ | ⟨d, tl⟩⟩⟩⟩
      · exact absurd rfl h1
      · simp [b64Decode] at h
      · simp [b64Decode] at h
      · simp [b64Decode] at h
      · exact absurd rfl (h2 a b c d tl)

theorem sha256_length (msg : List Nat) : (sha256 msg).length = 32 := by
  simp [sha256, be32]

theorem sha256_allBytes (msg : List Nat) : allBytes (sha256 msg) := by
  intro b hb
  simp only [sha256, be32, List.cons_append, List.nil_append, List.mem_cons,
    List.mem_singleton, List.not_mem_nil, or_false] at hb
  rcases hb with h | h | h | h | h | h | h | h | h | h | h | h | h | h | h | h |
    h | h | h | h | h | h | h | h | h | h | h | h | h | h | h | h <;>
    subst h <;> exact Nat.mod_lt _ (by omega)

theorem hmacSha256_length (key msg : List Nat) : (hmacSha256 key msg).length = 32 :=
  sha256_length _

theorem hmacSha256_allBytes (key msg : List Nat) : allBytes (hmacSha256 key msg) :=
  sha256_allBytes _

/-! ## Calendar lemmas

The inverse relation between `civilFromDays` and `daysFromCivil`, and the
validity of the civil date `civilFromDays` produces.  The year-of-era
extraction is settled once by a 400-case sweep (`doeFacts`); everything
else is linear arithmetic over the division atoms. -/

theorem yoeBound (doe yoe : Int) (h0 : 0 ≤ doe) (h1 : doe ≤ 146096)
    (hyoe : yoe = (doe - doe / 1460 + doe / 36524 - doe / 146096) / 365) :
    0 ≤ yoe ∧ yoe ≤ 399 := by
  omega

set_option maxHeartbeats 10000000 in
theorem doeFacts (doe yoe : Int) (h0 : 0 ≤ doe) (h1 : doe ≤ 146096)
    (hyoe : yoe = (doe - doe / 1460 + doe / 36524 - doe / 146096) / 365) :
    0 ≤ doe - (365 * yoe + yoe / 4 - yoe / 100) ∧
    doe - (365 * yoe + yoe / 4 - yoe / 100) ≤ 365 ∧
    (doe - (365 * yoe + yoe / 4 - yoe / 100) = 365 →
      (yoe + 1) % 4 = 0 ∧ ((yoe + 1) % 100 ≠ 0 ∨ (yoe + 1) % 400 = 0)) := by
  have hb1 : 0 ≤ yoe := by omega
  have hb2 : yoe ≤ 399 := by omega
  interval_cases yoe <;> omega

set_option maxHeartbeats 2000000 in
theorem dfcAux1 (z era doe yoe doy mp d : Int)
    (hera : era = (z + 719468) / 146097) (hdoe : doe = (z + 719468) % 146097)
    (hyoe : yoe = (doe - doe / 1460 + doe / 36524 - doe / 146096) / 365)
    (hdoy : doy = doe - (365 * yoe + yoe / 4 - yoe / 100))
    (hmp : mp = (5 * doy + 2) / 153) (hd : d = doy - (153 * mp + 2) / 5 + 1)
    (h10 : mp < 10) :
    daysFromCivil (yoe + era * 400) (mp + 3) d = z := by
  have hyoeb := yoeBound doe yoe (by omega) (by omega) hyoe
  have hfacts := doeFacts doe yoe (by omega) (by omega) hyoe
  simp only [daysFromCivil]
  rw [if_neg (by omega), if_pos (by omega)]
  have hyoe2 : yoe + era * 400 - (yoe + era * 400) / 400 * 400 = yoe := by omega
  have hera2 : (yoe + era * 400) / 400 = era := by omega
  rw [hyoe2, hera2]
  have hmpl : (153 * (mp + 3 - 3) + 2) / 5 = (153 * mp + 2) / 5 := by omega
  rw [hmpl]
  omega

set_option maxHeartbeats 2000000 in
theorem dfcAux2 (z era doe yoe doy mp d : Int)
    (hera : era = (z + 719468) / 146097) (hdoe : doe = (z + 719468) % 146097)
    (hyoe : yoe = (doe - doe / 1460 + doe / 36524 - doe / 146096) / 365)
    (hdoy : doy = doe - (365 * yoe + yoe / 4 - yoe / 100))
    (hmp : mp = (5 * doy + 2) / 153) (hd : d = doy - (153 * mp + 2) / 5 + 1)
    (h10 : ¬mp < 10) :
    daysFromCivil (yoe + era * 400 + 1) (mp - 9) d = z := by
  have hyoeb := yoeBound doe yoe (by omega) (by omega) hyoe
  have hfacts := doeFacts doe yoe (by omega) (by omega) hyoe
  simp only [daysFromCivil]
  rw [if_pos (by omega), if_neg (by omega)]
  have hyoe2 : yoe + era * 400 + 1 - 1 - (yoe + era * 400 + 1 - 1) / 400 * 400 = yoe := by
    omega
  have hera2 : (yoe + era * 400 + 1 - 1) / 400 = era := by omega
  rw [hyoe2, hera2]
  have hmpl : (153 * (mp - 9 + 9) + 2) / 5 = (153 * mp + 2) / 5 := by omega
  rw [hmpl]
  omega

theorem daysFromCivil_civilFromDays (z : Int) :
    daysFromCivil (civilFromDays z).1 (civilFromDays z).2.1 (civilFromDays z).2.2 = z := by
  simp only [civilFromDays]
  split
  · dsimp only
    exact dfcAux1 z _ _ _ _ _ _ rfl rfl rfl rfl rfl rfl (by assumption)
  · dsimp only
    exact dfcAux2 z _ _ _ _ _ _ rfl rfl rfl rfl rfl rfl (by assumption)

set_option maxHeartbeats 4000000 in
theorem civilFromDays_valid (z : Int) :
    1 ≤ (civilFromDays z).2.1 ∧ (civilFromDays z).2.1 ≤ 12 ∧
    1 ≤ (civilFromDays z).2.2 ∧
    (civilFromDays z).2.2 ≤ daysInMonth (civilFromDays z).1 (civilFromDays z).2.1 := by
  have hfacts := doeFacts ((z + 719468) % 146097)
      (((z + 719468) % 146097 - (z + 719468) % 146097 / 1460 + (z + 719468) % 146097 / 36524 -
        (z + 719468) % 146097 / 146096) / 365)
      (by omega) (by omega) rfl
  simp only [civilFromDays, daysInMonth, isLeapYear, Bool.and_eq_true, decide_eq_true_eq,
    Bool.or_eq_true, ne_eq, Bool.not_eq_true, decide_eq_false_iff_not]
  split <;> dsimp only <;> split_ifs <;> simp_all <;> omega

/-! ## RFC3339 lemmas -/

theorem isDigit_digitChar : ∀ k < 10, isDigit (digitChar k) = true := by decide
theorem digitVal_digitChar : ∀ k < 10, digitVal (digitChar k) = k := by decide

theorem parseFraction_offsetChars (off : Int) :
    parseFraction (offsetChars off) = none := by
  unfold offsetChars
  split
  · rfl
  · by_cases hlt : off < 0
    · simp only [if_pos hlt, pad2]
      rfl
    · simp only [if_neg hlt, pad2]
      rfl

theorem parseZone_offsetChars (off : Int) (hoff : off.natAbs ≤ 1439) :
    parseZone (offsetChars off) = some off := by
  unfold offsetChars
  split
  · simp only [parseZone, Option.some.injEq]
    omega
  · by_cases hlt : off < 0
    · simp only [if_pos hlt, pad2, List.cons_append, List.nil_append]
      simp only [parseZone]
      rw [if_pos ⟨Or.inr trivial, isDigit_digitChar _ (by omega), isDigit_digitChar _ (by omega),
        isDigit_digitChar _ (by omega), isDigit_digitChar _ (by omega)⟩]
      rw [digitVal_digitChar (off.natAbs / 60 / 10 % 10) (by omega),
        digitVal_digitChar (off.natAbs / 60 % 10) (by omega),
        digitVal_digitChar (off.natAbs % 60 / 10 % 10) (by omega),
        digitVal_digitChar (off.natAbs % 60 % 10) (by omega)]
      rw [if_pos (by constructor <;> omega)]
      rw [if_pos trivial]
      simp only [Option.some.injEq]
      omega
    · simp only [if_neg hlt, pad2, List.cons_append, List.nil_append]
      simp only [parseZone]
      rw [if_pos ⟨Or.inl trivial, isDigit_digitChar _ (by omega), isDigit_digitChar _ (by omega),
        isDigit_digitChar _ (by omega), isDigit_digitChar _ (by omega)⟩]
      rw [digitVal_digitChar (off.natAbs / 60 / 10 % 10) (by omega),
        digitVal_digitChar (off.natAbs / 60 % 10) (by omega),
        digitVal_digitChar (off.natAbs % 60 / 10 % 10) (by omega),
        digitVal_digitChar (off.natAbs % 60 % 10) (by omega)]
      rw [if_pos (by constructor <;> omega)]
      rw [if_neg (by simp)]
      simp only [Option.some.injEq]
      omega

theorem daysInMonth_le (y m : Int) : daysInMonth y m ≤ 31 := by
  unfold daysInMonth
  split_ifs <;> omega

theorem twoDigits (n : Nat) (h : n ≤ 99) : n / 10 % 10 * 10 + n % 10 = n := by omega

theorem fourDigits (n : Nat) (h : n ≤ 9999) :
    ((n / 1000 % 10 * 10 + n / 100 % 10) * 10 + n / 10 % 10) * 10 + n % 10 = n := by omega

set_option maxHeartbeats 2000000 in
theorem rfcParseAux (Y M D H Mi S : Nat) (off : Int) (t : GoTime)
    (hY : Y ≤ 9999) (hM1 : 1 ≤ M) (hM2 : M ≤ 12) (hD1 : 1 ≤ D)
    (hD2 : (D : Int) ≤ daysInMonth Y M) (hD3 : D ≤ 31)
    (hH : H ≤ 23) (hMi : Mi ≤ 59) (hS : S ≤ 59)
    (hoff : off.natAbs ≤ 1439)
    (hsec : daysFromCivil Y M D * 86400 + H * 3600 + Mi * 60 + S - off * 60 = t.sec)
    (hn : t.nanos = 0) (hofft : t.offsetMin = off) :
    rfc3339Parse (pad4 Y ++ '-' :: pad2 M ++ '-' :: pad2 D ++ 'T' :: pad2 H ++
      ':' :: pad2 Mi ++ ':' :: pad2 S ++ offsetChars off) = some t := by
  simp only [pad4, pad2, List.cons_append, List.nil_append]
  simp only [rfc3339Parse]
  rw [if_pos ⟨isDigit_digitChar _ (by omega), isDigit_digitChar _ (by omega),
    isDigit_digitChar _ (by omega), isDigit_digitChar _ (by omega),
    isDigit_digitChar _ (by omega), isDigit_digitChar _ (by omega),
    isDigit_digitChar _ (by omega), isDigit_digitChar _ (by omega),
    isDigit_digitChar _ (by omega), isDigit_digitChar _ (by omega),
    isDigit_digitChar _ (by omega), isDigit_digitChar _ (by omega),
    isDigit_digitChar _ (by omega), isDigit_digitChar _ (by omega)⟩]
  rw [digitVal_digitChar (Y / 1000 % 10) (by omega), digitVal_digitChar (Y / 100 % 10) (by omega),
    digitVal_digitChar (Y / 10 % 10) (by omega), digitVal_digitChar (Y % 10) (by omega),
    digitVal_digitChar (M / 10 % 10) (by omega), digitVal_digitChar (M % 10) (by omega),
    digitVal_digitChar (D / 10 % 10) (by omega), digitVal_digitChar (D % 10) (by omega),
    digitVal_digitChar (H / 10 % 10) (by omega), digitVal_digitChar (H % 10) (by omega),
    digitVal_digitChar (Mi / 10 % 10) (by omega), digitVal_digitChar (Mi % 10) (by omega),
    digitVal_digitChar (S / 10 % 10) (by omega), digitVal_digitChar (S % 10) (by omega)]
  rw [fourDigits Y hY, twoDigits M (by omega), twoDigits D (by omega),
    twoDigits H (by omega), twoDigits Mi (by omega), twoDigits S (by omega)]
  rw [if_pos ⟨hM1, hM2, hD1, hD2, hH, hMi, hS⟩]
  rw [parseFraction_offsetChars]
  simp only [Option.map_none', Option.getD_none]
  rw [parseZone_offsetChars off hoff]
  rw [show t = (⟨t.sec, t.nanos, t.offsetMin⟩ : GoTime) from rfl]
  simp only [Option.some.injEq, GoTime.mk.injEq]
  exact ⟨hsec, hn.symm, hofft.symm⟩

set_option maxHeartbeats 1000000 in
theorem rfc3339Parse_rfc3339Format (t : GoTime)
    (hn : t.nanos = 0) (hoff : t.offsetMin.natAbs ≤ 1439)
    (hy0 : 0 ≤ (civilFromDays ((t.sec + t.offsetMin * 60) / 86400)).1)
    (hy1 : (civilFromDays ((t.sec + t.offsetMin * 60) / 86400)).1 ≤ 9999) :
    rfc3339Parse (rfc3339Format t) = some t := by
  obtain ⟨hm1, hm2, hd1, hd2⟩ := civilFromDays_valid ((t.sec + t.offsetMin * 60) / 86400)
  have hdfc := daysFromCivil_civilFromDays ((t.sec + t.offsetMin * 60) / 86400)
  have hsod0 : 0 ≤ (t.sec + t.offsetMin * 60) % 86400 := by omega
  have hsod1 : (t.sec + t.offsetMin * 60) % 86400 < 86400 := by omega
  have hyc : (((civilFromDays ((t.sec + t.offsetMin * 60) / 86400)).1.toNat : Int)) =
      (civilFromDays ((t.sec + t.offsetMin * 60) / 86400)).1 := Int.toNat_of_nonneg hy0
  have hmc : (((civilFromDays ((t.sec + t.offsetMin * 60) / 86400)).2.1.toNat : Int)) =
      (civilFromDays ((t.sec + t.offsetMin * 60) / 86400)).2.1 :=
    Int.toNat_of_nonneg (by omega)
  have hdc : (((civilFromDays ((t.sec + t.offsetMin * 60) / 86400)).2.2.toNat : Int)) =
      (civilFromDays ((t.sec + t.offsetMin * 60) / 86400)).2.2 :=
    Int.toNat_of_nonneg (by omega)
  simp only [rfc3339Format, yearChars, if_pos (And.intro hy0 hy1)]
  have hdm := daysInMonth_le (civilFromDays ((t.sec + t.offsetMin * 60) / 86400)).1
      (civilFromDays ((t.sec + t.offsetMin * 60) / 86400)).2.1
  apply rfcParseAux
  · omega
  · omega
  · omega
  · omega
  · rw [hdc, hyc, hmc]
    exact hd2
  · omega
  · omega
  · omega
  · omega
  · exact hoff
  · rw [hyc, hmc, hdc, hdfc]
    omega
  · exact hn
  · rfl

/-! ## Verification lemmas -/

theorem absNanos_goUTC (t : GoTime) : absNanos (goUTC t) = absNanos t := rfl

/-- Verifying a token immediately after signing it with the same secret and
content reduces to the timestamp-window check alone: the recomputed
signature coincides with the stored one. -/
theorem verify_tokenSignOp_eq (t0 : BearerToken) (secret content : List Nat) (w : Int)
    (now : GoTime) :
    tokenVerify (tokenSignOp t0 secret content) secret content w now =
      (if absNanos t0.timestamp < absNanos now - w ∨
          absNanos now + w < absNanos t0.timestamp then
        some VerifyErr.illegalTimestamp
      else none) := by
  simp [tokenVerify, tokenSignOp, constantTimeEq, tokenSignBytes, absNanos_goUTC]

/-- A signature-valid verification reduces to the window check. -/
theorem verify_sigvalid_eq (t : BearerToken) (secret content : List Nat) (w : Int)
    (now : GoTime) (hsig : t.signature = tokenSignBytes t secret content) :
    tokenVerify t secret content w now =
      (if absNanos t.timestamp < absNanos now - w ∨
          absNanos now + w < absNanos t.timestamp then
        some VerifyErr.illegalTimestamp
      else none) := by
  simp [tokenVerify, constantTimeEq, hsig, absNanos_goUTC]

/-! ## C1 -/

/-- C1, as stated, is false: the claim quantifies over every timestamp and
asserts `Verify` succeeds for any tolerance `≥ 0`, but `Verify` reads the
clock and rejects timestamps outside the skew window.  Concretely, a token
signed with the epoch timestamp fails verification with zero tolerance
when the clock reads 1000 seconds. -/
theorem C1_counterexample :
    tokenVerify (tokenSignOp ⟨zeroUUID, ⟨0, 0, 0⟩, []⟩ [] []) [] [] 0 ⟨1000, 0, 0⟩ =
      some VerifyErr.illegalTimestamp := by
  rw [verify_tokenSignOp_eq, if_pos]
  exact Or.inl (by decide)

/-- C1 (amended): for every secret, body, key identifier, prior signature,
timestamp and tolerance `w ≥ 0`, constructing a token with that timestamp,
signing it, and verifying with the same secret and body succeeds, provided
the verifying clock lies within the skew window of the token's timestamp
(in particular whenever verification happens at the moment of signing). -/
theorem C1_sign_then_verify (secret content sig0 : List Nat) (kid : GoUUID)
    (ts now : GoTime) (w : Int) (h0 : 0 ≤ w)
    (h1 : absNanos now - w ≤ absNanos ts) (h2 : absNanos ts ≤ absNanos now + w) :
    tokenVerify (tokenSignOp ⟨kid, ts, sig0⟩ secret content) secret content w now = none := by
  rw [verify_tokenSignOp_eq, if_neg]
  simp only [not_or, not_lt]
  exact ⟨by omega, by omega⟩

theorem C1_sign_then_verify_witness :
    (0 : Int) ≤ 0 ∧
    tokenVerify (tokenSignOp ⟨zeroUUID, ⟨42, 0, 0⟩, []⟩ [1, 2] [3]) [1, 2] [3] 0
      ⟨42, 0, 0⟩ = none :=
  ⟨le_refl 0,
   C1_sign_then_verify [1, 2] [3] [] zeroUUID ⟨42, 0, 0⟩ ⟨42, 0, 0⟩ 0 (by decide)
     (by decide) (by decide)⟩

/-! ## C5 -/

/-- C5: when the token's stored signature matches the recomputed one,
`Verify` fails with the stale-or-future-timestamp error exactly when
`|now − t0| > w` (both future and past excess), and succeeds at the
inclusive boundary `|now − t0| = w`; the accepted window is
`[now − w, now + w]` on instants. -/
theorem C5_verify_window (t : BearerToken) (secret content : List Nat) (w : Int)
    (now : GoTime) (hsig : t.signature = tokenSignBytes t secret content) :
    (tokenVerify t secret content w now = some VerifyErr.illegalTimestamp ↔
      w < |absNanos now - absNanos t.timestamp|) ∧
    (|absNanos now - absNanos t.timestamp| = w →
      tokenVerify t secret content w now = none) := by
  rw [verify_sigvalid_eq t secret content w now hsig]
  rcases le_total (absNanos t.timestamp) (absNanos now) with hle | hle
  · rw [abs_of_nonneg (by omega)]
    constructor
    · by_cases hP : absNanos t.timestamp < absNanos now - w ∨
          absNanos now + w < absNanos t.timestamp
      · simp only [if_pos hP, eq_self_iff_true, true_iff]
        omega
      · simp only [if_neg hP, reduceCtorEq, false_iff, not_lt]
        omega
    · intro hb
      rw [if_neg]
      omega
  · rw [abs_of_nonpos (by omega)]
    constructor
    · by_cases hP : absNanos t.timestamp < absNanos now - w ∨
          absNanos now + w < absNanos t.timestamp
      · simp only [if_pos hP, eq_self_iff_true, true_iff]
        omega
      · simp only [if_neg hP, reduceCtorEq, false_iff, not_lt]
        omega
    · intro hb
      rw [if_neg]
      omega

theorem C5_verify_window_witness :
    (tokenSignOp ⟨zeroUUID, ⟨5, 0, 0⟩, []⟩ [] [7]).signature =
      tokenSignBytes (tokenSignOp ⟨zeroUUID, ⟨5, 0, 0⟩, []⟩ [] [7]) [] [7] ∧
    tokenVerify (tokenSignOp ⟨zeroUUID, ⟨5, 0, 0⟩, []⟩ [] [7]) [] [7] 2000000000
      ⟨7, 0, 0⟩ = none :=
  ⟨rfl,
   (C5_verify_window (tokenSignOp ⟨zeroUUID, ⟨5, 0, 0⟩, []⟩ [] [7]) [] [7] 2000000000
     ⟨7, 0, 0⟩ rfl).2 (by decide)⟩

/-! ## C6 -/

/-- C6: any input whose decoded content would exceed `maxPackedLen` bytes
is rejected by `Unpack` with the oversized-input error, the receiver left
unchanged.  (The guard fires on the encoded length alone, before the
base64 or JSON stage of `unpackToken` is reached, so no decoding or
parsing is attempted on such inputs; base64 never shrinks, so every input
with decoded content over the limit is caught.) -/
theorem C6_unpack_oversized (t : BearerToken) (s : List Char) (bs : List Nat)
    (hdec : b64Decode s = some bs) (hlen : maxPackedLen < bs.length) :
    unpackToken t s = (t, some (UnpackErr.oversized s.length)) := by
  have hs : maxPackedLen < s.length := by
    have := b64Decode_length s bs hdec
    simp only [maxPackedLen] at *
    omega
  rw [unpackToken]
  simp only [if_pos hs]

theorem C6_unpack_oversized_witness :
    b64Decode (b64Encode (List.replicate 1026 0)) = some (List.replicate 1026 0) ∧
    maxPackedLen < (List.replicate 1026 0).length ∧
    unpackToken emptyBearerToken (b64Encode (List.replicate 1026 0)) =
      (emptyBearerToken,
        some (UnpackErr.oversized (b64Encode (List.replicate 1026 0)).length)) :=
  ⟨b64Decode_b64Encode _ (fun b hb => by rw [List.eq_of_mem_replicate hb]; omega),
   by rw [List.length_replicate]; decide,
   C6_unpack_oversized emptyBearerToken _ _
     (b64Decode_b64Encode _ (fun b hb => by rw [List.eq_of_mem_replicate hb]; omega))
     (by rw [List.length_replicate]; decide)⟩

/-! ## C10 -/

/-- Every `Unpack` run either leaves the receiver unchanged or returns no
error: the branch structure assigns the receiver only in the final,
fully-validated branch. -/
theorem unpackToken_cases (t : BearerToken) (s : List Char) :
    (unpackToken t s).1 = t ∨ (unpackToken t s).2 = none := by
  unfold unpackToken
  split
  · exact Or.inl rfl
  · split
    · exact Or.inl rfl
    · split
      · exact Or.inl rfl
      · split
        · exact Or.inl rfl
        · split
          · exact Or.inl rfl
          · split
            · exact Or.inl rfl
            · split
              · exact Or.inl rfl
              · exact Or.inr rfl

/-- C10: `Unpack` is atomic on failure — whenever it returns an error, the
receiver's fields are unchanged, because the Go code assigns the receiver
only after every validation has passed. -/
theorem C10_unpack_atomic (t : BearerToken) (s : List Char)
    (h : (unpackToken t s).2.isSome) : (unpackToken t s).1 = t := by
  rcases unpackToken_cases t s with hc | hc
  · exact hc
  · rw [hc] at h
    simp at h

set_option maxRecDepth 40000 in
theorem C10_unpack_atomic_witness :
    ((unpackToken emptyBearerToken (List.replicate 1025 'A')).2.isSome = true) ∧
    (unpackToken emptyBearerToken (List.replicate 1025 'A')).1 = emptyBearerToken :=
  ⟨by decide,
   C10_unpack_atomic emptyBearerToken (List.replicate 1025 'A') (by decide)⟩

/-! ## UUID, JSON and envelope round-trip lemmas -/

theorem hexDecode_pair (b : Nat) (hb : b < 256) (rest : List Char) :
    hexDecode (hexDigitChar (b / 16) :: hexDigitChar (b % 16) :: rest) =
      (hexDecode rest).map (fun tl => b :: tl) := by
  simp only [hexDecode, hexDigitVal_hexDigitChar (b / 16) (by omega),
    hexDigitVal_hexDigitChar (b % 16) (by omega), Option.bind_eq_bind, Option.some_bind,
    Option.pure_def]
  have : b / 16 * 16 + b % 16 = b := by omega
  rw [this]
  cases hexDecode rest <;> rfl

theorem uuidParse_uuidString (u : GoUUID) (hlen : u.bytes.length = 16)
    (hb : allBytes u.bytes) : uuidParse (uuidString u) = some u := by
  rcases u with ⟨bs⟩
  simp only at hlen hb
  rcases bs with _ | ⟨b0, bs⟩ <;> try simp at hlen
  rcases bs with _ | ⟨b1, bs⟩ <;> try simp at hlen
  rcases bs with _ | ⟨b2, bs⟩ <;> try simp at hlen
  rcases bs with _ | ⟨b3, bs⟩ <;> try simp at hlen
  rcases bs with _ | ⟨b4, bs⟩ <;> try simp at hlen
  rcases bs with _ | ⟨b5, bs⟩ <;> try simp at hlen
  rcases bs with _ | ⟨b6, bs⟩ <;> try simp at hlen
  rcases bs with _ | ⟨b7, bs⟩ <;> try simp at hlen
  rcases bs with _ | ⟨b8, bs⟩ <;> try simp at hlen
  rcases bs with _ | ⟨b9, bs⟩ <;> try simp at hlen
  rcases bs with _ | ⟨b10, bs⟩ <;> try simp at hlen
  rcases bs with _ | ⟨b11, bs⟩ <;> try simp at hlen
  rcases bs with _ | ⟨b12, bs⟩ <;> try simp at hlen
  rcases bs with _ | ⟨b13, bs⟩ <;> try simp at hlen
  rcases bs with _ | ⟨b14, bs⟩ <;> try simp at hlen
  rcases bs with _ | ⟨b15, bs⟩ <;> try simp at hlen
  rcases bs with _ | ⟨b16, bs⟩
  case cons => simp at hlen
  have h0 : b0 < 256 := hb b0 (by simp)
  have h1 : b1 < 256 := hb b1 (by simp)
  have h2 : b2 < 256 := hb b2 (by simp)
  have h3 : b3 < 256 := hb b3 (by simp)
  have h4 : b4 < 256 := hb b4 (by simp)
  have h5 : b5 < 256 := hb b5 (by simp)
  have h6 : b6 < 256 := hb b6 (by simp)
  have h7 : b7 < 256 := hb b7 (by simp)
  have h8 : b8 < 256 := hb b8 (by simp)
  have h9 : b9 < 256 := hb b9 (by simp)
  have h10 : b10 < 256 := hb b10 (by simp)
  have h11 : b11 < 256 := hb b11 (by simp)
  have h12 : b12 < 256 := hb b12 (by simp)
  have h13 : b13 < 256 := hb b13 (by simp)
  have h14 : b14 < 256 := hb b14 (by simp)
  have h15 : b15 < 256 := hb b15 (by simp)
  simp only [uuidString, hexEncode, List.flatMap_cons, List.flatMap_nil, List.take,
    List.drop, List.cons_append, List.nil_append, List.append_nil]
  rw [uuidParse]
  rw [if_pos (by constructor <;> simp)]
  simp only [List.take, List.drop, List.cons_append, List.nil_append]
  rw [hexDecode_pair b0 h0, hexDecode_pair b1 h1, hexDecode_pair b2 h2, hexDecode_pair b3 h3,
    hexDecode_pair b4 h4, hexDecode_pair b5 h5, hexDecode_pair b6 h6, hexDecode_pair b7 h7,
    hexDecode_pair b8 h8, hexDecode_pair b9 h9, hexDecode_pair b10 h10, hexDecode_pair b11 h11,
    hexDecode_pair b12 h12, hexDecode_pair b13 h13, hexDecode_pair b14 h14,
    hexDecode_pair b15 h15]
  rfl

theorem jsonEscapeChar_plain (c : Char) (h : jsonPlainChar c = true) :
    jsonEscapeChar c = [c] := by
  simp only [jsonPlainChar, Bool.and_eq_true, decide_eq_true_eq, bne_iff_ne, ne_eq,
    Bool.not_eq_true', decide_eq_false_iff_not] at h
  obtain ⟨⟨⟨⟨⟨⟨h1, h2⟩, h3⟩, h4⟩, h5⟩, h6⟩, h7⟩ := h
  unfold jsonEscapeChar
  rw [if_neg h3, if_neg h4, if_neg (by rintro rfl; simp at h1),
    if_neg (by rintro rfl; simp at h1), if_neg (by rintro rfl; simp at h1),
    if_neg (by omega), if_neg h5, if_neg h6, if_neg h7]

theorem flatMap_escape_plain (s : List Char) (h : ∀ c ∈ s, jsonPlainChar c = true) :
    s.flatMap jsonEscapeChar = s := by
  induction s with
  | nil => rfl
  | cons c tl ih =>
      rw [List.flatMap_cons, jsonEscapeChar_plain c (h c (by simp)),
        ih (fun x hx => h x (by simp [hx]))]
      rfl

theorem jsonStr_plain (s : List Char) (h : ∀ c ∈ s, jsonPlainChar c = true) :
    jsonStr s = '"' :: s ++ ['"'] := by
  simp only [jsonStr, flatMap_escape_plain s h]

theorem parseJSONStringBody_plain (s rest : List Char)
    (h : ∀ c ∈ s, jsonPlainChar c = true) :
    parseJSONStringBody (s ++ '"' :: rest) = some (s, rest) := by
  induction s with
  | nil =>
      rw [List.nil_append, parseJSONStringBody.eq_def]
      simp
  | cons c tl ih =>
      have hc := h c (by simp)
      simp only [jsonPlainChar, Bool.and_eq_true, decide_eq_true_eq, bne_iff_ne, ne_eq,
        Bool.not_eq_true', decide_eq_false_iff_not] at hc
      rw [List.cons_append, parseJSONStringBody.eq_def]
      simp only []
      rw [if_neg hc.1.1.1.1.2, if_neg hc.1.1.1.2,
        ih (fun x hx => h x (by simp [hx]))]
      rfl

theorem parseJSONString_jsonStr (s rest : List Char)
    (h : ∀ c ∈ s, jsonPlainChar c = true) :
    parseJSONString (jsonStr s ++ rest) = some (s, rest) := by
  rw [jsonStr_plain s h]
  simp only [List.cons_append, List.append_assoc, List.cons_append, List.nil_append,
    parseJSONString]
  exact parseJSONStringBody_plain s rest h

theorem parseTokenTail_comma (rest : List Char) (acc : TokenJSON) (k : Nat) :
    parseTokenTail (k + 1) acc (',' :: rest) = parseTokenMembers k acc rest false := by
  simp only [parseTokenTail, jsonSkipWs]
  simp

theorem parseTokenTail_close (rest : List Char) (acc : TokenJSON) (k : Nat) :
    parseTokenTail (k + 1) acc ('}' :: rest) = some (acc, rest) := by
  simp only [parseTokenTail, jsonSkipWs]
  simp

theorem parseJSONString_cons (rest : List Char) :
    parseJSONString ('"' :: rest) = parseJSONStringBody rest := rfl

theorem jsonSkipWs_quote (rest : List Char) : jsonSkipWs ('"' :: rest) = '"' :: rest := rfl

theorem parseMemberStep (key value tail : List Char) (acc : TokenJSON) (k : Nat) (first : Bool)
    (hknown : isKnownTokenField key = true)
    (hkp : ∀ c ∈ key, jsonPlainChar c = true)
    (hvp : ∀ c ∈ value, jsonPlainChar c = true) :
    parseTokenMembers (k + 1) acc
      ('"' :: (key ++ ('"' :: ':' :: '"' :: (value ++ ('"' :: tail))))) first =
      parseTokenTail k (setTokenField acc key value) tail := by
  have h2 := parseJSONStringBody_plain key (':' :: '"' :: (value ++ ('"' :: tail))) hkp
  have h3 := parseJSONStringBody_plain value tail hvp
  simp only [parseTokenMembers, jsonSkipWs_quote]
  split
  · next rest heq =>
      simp at heq
  · next s₁ x =>
      rw [parseJSONString_cons, h2]
      simp only [Option.bind_eq_bind, Option.some_bind]
      rw [show jsonSkipWs (':' :: '"' :: (value ++ '"' :: tail)) =
        ':' :: '"' :: (value ++ '"' :: tail) from rfl]
      split
      · next s₂ heq =>
          injection heq with h1 h2
          subst h2
          rw [if_pos hknown]
          rw [show jsonSkipWs ('"' :: (value ++ '"' :: tail)) =
            '"' :: (value ++ '"' :: tail) from rfl]
          split
          · next s₃ heq2 => simp at heq2
          · next s₃ x2 =>
              rw [parseJSONString_cons, h3]
              simp only [Option.bind_eq_bind, Option.some_bind]
      · next x2 => exact (x2 _ rfl).elim

theorem jsonDecodeToken_open (rest : List Char) :
    jsonDecodeToken ('{' :: rest) =
      (parseTokenMembers (rest.length + 2) emptyTokenJSON rest true).map Prod.fst := rfl

theorem parseFourMembers (k1 v1 k2 v2 k3 v3 k4 v4 : List Char) (f : Nat)
    (hkn1 : isKnownTokenField k1 = true) (hkp1 : ∀ c ∈ k1, jsonPlainChar c = true)
    (hkn2 : isKnownTokenField k2 = true) (hkp2 : ∀ c ∈ k2, jsonPlainChar c = true)
    (hkn3 : isKnownTokenField k3 = true) (hkp3 : ∀ c ∈ k3, jsonPlainChar c = true)
    (hkn4 : isKnownTokenField k4 = true) (hkp4 : ∀ c ∈ k4, jsonPlainChar c = true)
    (hvp1 : ∀ c ∈ v1, jsonPlainChar c = true) (hvp2 : ∀ c ∈ v2, jsonPlainChar c = true)
    (hvp3 : ∀ c ∈ v3, jsonPlainChar c = true) (hvp4 : ∀ c ∈ v4, jsonPlainChar c = true) :
    parseTokenMembers (f + 9) emptyTokenJSON
      ('"' :: (k1 ++ ('"' :: ':' :: '"' :: (v1 ++ ('"' :: (',' :: ('"' :: (k2 ++ ('"' :: ':' :: '"' :: (v2 ++ ('"' :: (',' :: ('"' :: (k3 ++ ('"' :: ':' :: '"' :: (v3 ++ ('"' :: (',' :: ('"' :: (k4 ++ ('"' :: ':' :: '"' :: (v4 ++ ('"' :: ('}' :: [])))))))))))))))))))))))) true =
      some (setTokenField (setTokenField (setTokenField (setTokenField
        emptyTokenJSON k1 v1) k2 v2) k3 v3) k4 v4, []) := by
  rw [show f + 9 = (f + 8) + 1 from rfl,
    parseMemberStep k1 v1 _ emptyTokenJSON (f + 8) true hkn1 hkp1 hvp1]
  rw [show f + 8 = (f + 7) + 1 from rfl, parseTokenTail_comma]
  rw [show f + 7 = (f + 6) + 1 from rfl,
    parseMemberStep k2 v2 _ _ (f + 6) false hkn2 hkp2 hvp2]
  rw [show f + 6 = (f + 5) + 1 from rfl, parseTokenTail_comma]
  rw [show f + 5 = (f + 4) + 1 from rfl,
    parseMemberStep k3 v3 _ _ (f + 4) false hkn3 hkp3 hvp3]
  rw [show f + 4 = (f + 3) + 1 from rfl, parseTokenTail_comma]
  rw [show f + 3 = (f + 2) + 1 from rfl,
    parseMemberStep k4 v4 _ _ (f + 2) false hkn4 hkp4 hvp4]
  rw [show f + 2 = (f + 1) + 1 from rfl, parseTokenTail_close]

theorem parseFourMembersGE (k1 v1 k2 v2 k3 v3 k4 v4 : List Char)
    (hkn1 : isKnownTokenField k1 = true) (hkp1 : ∀ c ∈ k1, jsonPlainChar c = true)
    (hkn2 : isKnownTokenField k2 = true) (hkp2 : ∀ c ∈ k2, jsonPlainChar c = true)
    (hkn3 : isKnownTokenField k3 = true) (hkp3 : ∀ c ∈ k3, jsonPlainChar c = true)
    (hkn4 : isKnownTokenField k4 = true) (hkp4 : ∀ c ∈ k4, jsonPlainChar c = true)
    (hvp1 : ∀ c ∈ v1, jsonPlainChar c = true) (hvp2 : ∀ c ∈ v2, jsonPlainChar c = true)
    (hvp3 : ∀ c ∈ v3, jsonPlainChar c = true) (hvp4 : ∀ c ∈ v4, jsonPlainChar c = true)
    (fuel : Nat) (hf : 9 ≤ fuel) :
    parseTokenMembers fuel emptyTokenJSON
      ('"' :: (k1 ++ ('"' :: ':' :: '"' :: (v1 ++ ('"' :: (',' :: ('"' :: (k2 ++ ('"' :: ':' :: '"' :: (v2 ++ ('"' :: (',' :: ('"' :: (k3 ++ ('"' :: ':' :: '"' :: (v3 ++ ('"' :: (',' :: ('"' :: (k4 ++ ('"' :: ':' :: '"' :: (v4 ++ ('"' :: ('}' :: [])))))))))))))))))))))))) true =
      some (setTokenField (setTokenField (setTokenField (setTokenField
        emptyTokenJSON k1 v1) k2 v2) k3 v3) k4 v4, []) := by
  obtain ⟨f, rfl⟩ : ∃ f, fuel = f + 9 := ⟨fuel - 9, by omega⟩
  exact parseFourMembers k1 v1 k2 v2 k3 v3 k4 v4 f hkn1 hkp1 hkn2 hkp2 hkn3 hkp3
    hkn4 hkp4 hvp1 hvp2 hvp3 hvp4

set_option maxHeartbeats 1000000 in
theorem jsonDecodeToken_marshal (e : TokenJSON)
    (hk : ∀ c ∈ e.apiKeyID, jsonPlainChar c = true)
    (ht : ∀ c ∈ e.timestamp, jsonPlainChar c = true)
    (ha : ∀ c ∈ e.signingAlgo, jsonPlainChar c = true)
    (hs : ∀ c ∈ e.signature, jsonPlainChar c = true) :
    jsonDecodeToken (marshalTokenJSON e) = some e := by
  have hseg1 : ("\x7b\"apiKeyID\":".toList) =
      '{' :: '"' :: 'a' :: 'p' :: 'i' :: 'K' :: 'e' :: 'y' :: 'I' :: 'D' :: '"' :: ':' :: [] := rfl
  have hseg2 : (",\"timestamp\":".toList) =
      ',' :: '"' :: 't' :: 'i' :: 'm' :: 'e' :: 's' :: 't' :: 'a' :: 'm' :: 'p' :: '"' :: ':' :: [] := rfl
  have hseg3 : (",\"algo\":".toList) =
      ',' :: '"' :: 'a' :: 'l' :: 'g' :: 'o' :: '"' :: ':' :: [] := rfl
  have hseg4 : (",\"signature\":".toList) =
      ',' :: '"' :: 's' :: 'i' :: 'g' :: 'n' :: 'a' :: 't' :: 'u' :: 'r' :: 'e' :: '"' :: ':' :: [] := rfl
  rw [marshalTokenJSON, jsonStr_plain e.apiKeyID hk, jsonStr_plain e.timestamp ht,
    jsonStr_plain e.signingAlgo ha, jsonStr_plain e.signature hs, hseg1, hseg2, hseg3, hseg4]
  simp only [List.cons_append, List.nil_append, List.append_assoc]
  rw [jsonDecodeToken_open]
  have h4m := parseFourMembersGE
    ('a' :: 'p' :: 'i' :: 'K' :: 'e' :: 'y' :: 'I' :: 'D' :: []) e.apiKeyID
    ('t' :: 'i' :: 'm' :: 'e' :: 's' :: 't' :: 'a' :: 'm' :: 'p' :: []) e.timestamp
    ('a' :: 'l' :: 'g' :: 'o' :: []) e.signingAlgo
    ('s' :: 'i' :: 'g' :: 'n' :: 'a' :: 't' :: 'u' :: 'r' :: 'e' :: []) e.signature
    (by decide) (by decide) (by decide) (by decide) (by decide) (by decide)
    (by decide) (by decide) hk ht ha hs
  simp only [List.cons_append, List.nil_append] at h4m
  rw [h4m]
  · simp only [Option.map_some']
    rfl
  · simp only [List.length_cons, List.length_append]
    omega

theorem jsonPlainChar_digitChar : ∀ k < 10, jsonPlainChar (digitChar k) = true := by decide

theorem jsonPlainChar_hexDigitChar : ∀ k < 16, jsonPlainChar (hexDigitChar k) = true := by
  decide

theorem jsonPlainChar_lt127 (c : Char) (h : jsonPlainChar c = true) : c.toNat < 127 := by
  simp [jsonPlainChar] at h
  omega

theorem pad2_plain (n : Nat) : ∀ c ∈ pad2 n, jsonPlainChar c = true := by
  intro c hc
  simp only [pad2, List.mem_cons, List.not_mem_nil, or_false] at hc
  rcases hc with rfl | rfl <;> exact jsonPlainChar_digitChar _ (Nat.mod_lt _ (by omega))

theorem pad4_plain (n : Nat) : ∀ c ∈ pad4 n, jsonPlainChar c = true := by
  intro c hc
  simp only [pad4, List.mem_cons, List.not_mem_nil, or_false] at hc
  rcases hc with rfl | rfl | rfl | rfl <;>
    exact jsonPlainChar_digitChar _ (Nat.mod_lt _ (by omega))

theorem hexEncode_plain (bs : List Nat) (h : allBytes bs) :
    ∀ c ∈ hexEncode bs, jsonPlainChar c = true := by
  intro c hc
  simp only [hexEncode, List.mem_flatMap, List.mem_cons, List.not_mem_nil, or_false] at hc
  obtain ⟨b, hb, hcc⟩ := hc
  have hblt := h b hb
  rcases hcc with rfl | rfl
  · exact jsonPlainChar_hexDigitChar _ (by omega)
  · exact jsonPlainChar_hexDigitChar _ (by omega)

theorem uuidString_plain (u : GoUUID) (h : allBytes u.bytes) :
    ∀ c ∈ uuidString u, jsonPlainChar c = true := by
  have hTake : ∀ n, allBytes (u.bytes.take n) := fun n b hb => h b (List.mem_of_mem_take hb)
  have hDropTake : ∀ n m, allBytes ((u.bytes.drop n).take m) := fun n m b hb =>
    h b (List.mem_of_mem_drop (List.mem_of_mem_take hb))
  have hDrop : ∀ n, allBytes (u.bytes.drop n) := fun n b hb => h b (List.mem_of_mem_drop hb)
  simp only [uuidString, List.forall_mem_append, List.forall_mem_cons]
  exact ⟨⟨⟨⟨hexEncode_plain _ (hTake 4), by decide, hexEncode_plain _ (hDropTake 4 2)⟩,
    by decide, hexEncode_plain _ (hDropTake 6 2)⟩,
    by decide, hexEncode_plain _ (hDropTake 8 2)⟩,
    by decide, hexEncode_plain _ (hDrop 10)⟩

theorem offsetChars_plain (off : Int) : ∀ c ∈ offsetChars off, jsonPlainChar c = true := by
  unfold offsetChars
  split
  · intro c hc
    simp only [List.mem_singleton] at hc
    subst hc
    decide
  · split <;>
    · simp only [List.forall_mem_cons, List.cons_append, List.forall_mem_append]
      exact ⟨by decide, pad2_plain _, by decide, pad2_plain _⟩

theorem rfc3339Format_plain (t : GoTime)
    (hy0 : 0 ≤ (civilFromDays ((t.sec + t.offsetMin * 60) / 86400)).1)
    (hy1 : (civilFromDays ((t.sec + t.offsetMin * 60) / 86400)).1 ≤ 9999) :
    ∀ c ∈ rfc3339Format t, jsonPlainChar c = true := by
  simp only [rfc3339Format, yearChars, if_pos (And.intro hy0 hy1), List.forall_mem_append,
    List.forall_mem_cons]
  exact ⟨⟨⟨⟨⟨⟨pad4_plain _, by decide, pad2_plain _⟩, by decide, pad2_plain _⟩,
    by decide, pad2_plain _⟩, by decide, pad2_plain _⟩, by decide, pad2_plain _⟩,
    offsetChars_plain _⟩

theorem asciiBytes_map_ofNat (s : List Char) : (asciiBytes s).map Char.ofNat = s := by
  rw [asciiBytes, List.map_map]
  have : (Char.ofNat ∘ Char.toNat) = id := by
    funext c
    exact Char.ofNat_toNat c
  rw [this, List.map_id]

theorem marshal_bytes (e : TokenJSON)
    (hk : ∀ c ∈ e.apiKeyID, jsonPlainChar c = true)
    (ht : ∀ c ∈ e.timestamp, jsonPlainChar c = true)
    (ha : ∀ c ∈ e.signingAlgo, jsonPlainChar c = true)
    (hs : ∀ c ∈ e.signature, jsonPlainChar c = true) :
    ∀ c ∈ marshalTokenJSON e, c.toNat < 256 := by
  have fk : ∀ x ∈ e.apiKeyID, Char.toNat x < 256 := fun x hx => by
    have := jsonPlainChar_lt127 x (hk x hx); omega
  have ft : ∀ x ∈ e.timestamp, Char.toNat x < 256 := fun x hx => by
    have := jsonPlainChar_lt127 x (ht x hx); omega
  have fa : ∀ x ∈ e.signingAlgo, Char.toNat x < 256 := fun x hx => by
    have := jsonPlainChar_lt127 x (ha x hx); omega
  have fs : ∀ x ∈ e.signature, Char.toNat x < 256 := fun x hx => by
    have := jsonPlainChar_lt127 x (hs x hx); omega
  rw [marshalTokenJSON, jsonStr_plain e.apiKeyID hk, jsonStr_plain e.timestamp ht,
    jsonStr_plain e.signingAlgo ha, jsonStr_plain e.signature hs]
  simp only [List.forall_mem_append, List.forall_mem_cons]
  exact ⟨⟨⟨⟨⟨⟨⟨⟨by decide, ⟨by decide, fk⟩, by decide, by simp⟩, by decide⟩,
    ⟨by decide, ft⟩, by decide, by simp⟩, by decide⟩,
    ⟨by decide, fa⟩, by decide, by simp⟩, by decide⟩,
    ⟨by decide, fs⟩, by decide, by simp⟩, by decide, by simp⟩

theorem unpackToken_envelope (u : BearerToken) (kid : GoUUID) (ts : GoTime)
    (algo : List Char) (sig : List Nat)
    (hkl : kid.bytes.length = 16) (hkb : allBytes kid.bytes)
    (hn : ts.nanos = 0) (hoff : ts.offsetMin.natAbs ≤ 1439)
    (hy0 : 0 ≤ (civilFromDays ((ts.sec + ts.offsetMin * 60) / 86400)).1)
    (hy1 : (civilFromDays ((ts.sec + ts.offsetMin * 60) / 86400)).1 ≤ 9999)
    (ha : ∀ c ∈ algo, jsonPlainChar c = true)
    (hsb : allBytes sig)
    (hlen : (b64Encode (asciiBytes (marshalTokenJSON
        ⟨uuidString kid, rfc3339Format ts, algo, hexEncode sig⟩))).length ≤ maxPackedLen) :
    unpackToken u (b64Encode (asciiBytes (marshalTokenJSON
        ⟨uuidString kid, rfc3339Format ts, algo, hexEncode sig⟩))) =
      if lowerStr (trimSpace algo) ≠ ("hmac-sha256".toList) then
        (u, some (UnpackErr.unsupportedAlgo algo))
      else (⟨kid, ts, sig⟩, none) := by
  have hplain := marshal_bytes ⟨uuidString kid, rfc3339Format ts, algo, hexEncode sig⟩
    (uuidString_plain kid hkb) (rfc3339Format_plain ts hy0 hy1) ha
    (hexEncode_plain sig hsb)
  have habytes : allBytes (asciiBytes (marshalTokenJSON
      ⟨uuidString kid, rfc3339Format ts, algo, hexEncode sig⟩)) := by
    intro b hb
    simp only [asciiBytes, List.mem_map] at hb
    obtain ⟨c, hc, rfl⟩ := hb
    exact hplain c hc
  have hd := b64Decode_b64Encode _ habytes
  have hj := jsonDecodeToken_marshal ⟨uuidString kid, rfc3339Format ts, algo, hexEncode sig⟩
    (uuidString_plain kid hkb) (rfc3339Format_plain ts hy0 hy1) ha
    (hexEncode_plain sig hsb)
  simp only [unpackToken, if_neg (show ¬maxPackedLen <
      (b64Encode (asciiBytes (marshalTokenJSON
        ⟨uuidString kid, rfc3339Format ts, algo, hexEncode sig⟩))).length from by omega),
    hd, asciiBytes_map_ofNat, hj, uuidParse_uuidString kid hkl hkb,
    rfc3339Parse_rfc3339Format ts hn hoff hy0 hy1, hexDecode_hexEncode sig hsb]

/-! ## Length, alphabet, header and trimming lemmas -/

theorem hexEncode_length (bs : List Nat) : (hexEncode bs).length = 2 * bs.length := by
  induction bs with
  | nil => rfl
  | cons b tl ih => simp [hexEncode] at ih ⊢; omega

theorem uuidString_length (u : GoUUID) (hlen : u.bytes.length = 16) :
    (uuidString u).length = 36 := by
  simp [uuidString, hexEncode_length, List.length_append, hlen]

theorem rfc3339Format_length_le (t : GoTime)
    (hy0 : 0 ≤ (civilFromDays ((t.sec + t.offsetMin * 60) / 86400)).1)
    (hy1 : (civilFromDays ((t.sec + t.offsetMin * 60) / 86400)).1 ≤ 9999) :
    (rfc3339Format t).length ≤ 25 := by
  simp only [rfc3339Format, yearChars, if_pos (And.intro hy0 hy1), offsetChars, pad2, pad4,
    List.length_append, List.length_cons]
  split <;> simp [pad2]

theorem lowerHexChar (n : Nat) (h : n < 16) :
    (48 ≤ (hexDigitChar n).toNat ∧ (hexDigitChar n).toNat ≤ 57) ∨
    (97 ≤ (hexDigitChar n).toNat ∧ (hexDigitChar n).toNat ≤ 102) := by
  interval_cases n <;> simp [hexDigitChar] <;> decide

theorem b64Char_url : ∀ n < 64, b64UrlChar (b64Char n) = true := by
  decide

theorem b64Encode_alphabet (bs : List Nat) (h : allBytes bs) :
    ∀ c ∈ b64Encode bs, b64UrlChar c = true := by
  induction bs using b64Encode.induct with
  | case1 => intro c hc; simp [b64Encode] at hc
  | case2 b₁ =>
      have hb₁ : b₁ < 256 := h b₁ (by simp)
      intro c hc
      simp only [b64Encode, List.mem_cons, List.not_mem_nil, or_false] at hc
      rcases hc with rfl | rfl | rfl | rfl
      · exact b64Char_url _ (by omega)
      · exact b64Char_url _ (by omega)
      · decide
      · decide
  | case3 b₁ b₂ =>
      have hb₁ : b₁ < 256 := h b₁ (by simp)
      have hb₂ : b₂ < 256 := h b₂ (by simp)
      intro c hc
      simp only [b64Encode, List.mem_cons, List.not_mem_nil, or_false] at hc
      rcases hc with rfl | rfl | rfl | rfl
      · exact b64Char_url _ (by omega)
      · exact b64Char_url _ (by omega)
      · exact b64Char_url _ (by omega)
      · decide
  | case4 b₁ b₂ b₃ rest ih =>
      have hb₁ : b₁ < 256 := h b₁ (by simp)
      have hb₂ : b₂ < 256 := h b₂ (by simp)
      have hb₃ : b₃ < 256 := h b₃ (by simp)
      have hrest : allBytes rest := fun x hx => h x (by simp [hx])
      intro c hc
      simp only [b64Encode, List.mem_cons] at hc
      rcases hc with rfl | rfl | rfl | rfl | hc
      · exact b64Char_url _ (by omega)
      · exact b64Char_url _ (by omega)
      · exact b64Char_url _ (by omega)
      · exact b64Char_url _ (by omega)
      · exact ih hrest c hc

theorem marshal_ascii_allBytes (e : TokenJSON)
    (hk : ∀ c ∈ e.apiKeyID, jsonPlainChar c = true)
    (ht : ∀ c ∈ e.timestamp, jsonPlainChar c = true)
    (ha : ∀ c ∈ e.signingAlgo, jsonPlainChar c = true)
    (hs : ∀ c ∈ e.signature, jsonPlainChar c = true) :
    allBytes (asciiBytes (marshalTokenJSON e)) := by
  intro b hb
  simp only [asciiBytes, List.mem_map] at hb
  obtain ⟨c, hc, rfl⟩ := hb
  exact marshal_bytes e hk ht ha hs c hc

theorem packToken_alphabet (t : BearerToken)
    (hkb : allBytes t.apiKeyID.bytes)
    (hy0 : 0 ≤ (civilFromDays ((t.timestamp.sec + t.timestamp.offsetMin * 60) / 86400)).1)
    (hy1 : (civilFromDays ((t.timestamp.sec + t.timestamp.offsetMin * 60) / 86400)).1 ≤ 9999)
    (hsb : allBytes t.signature) :
    ∀ c ∈ packToken t, b64UrlChar c = true := by
  rw [packToken]
  exact b64Encode_alphabet (asciiBytes (marshalTokenJSON
    ⟨uuidString t.apiKeyID, rfc3339Format t.timestamp,
     ("HMAC-SHA256".toList), hexEncode t.signature⟩))
    (marshal_ascii_allBytes _ (uuidString_plain t.apiKeyID hkb)
      (rfc3339Format_plain t.timestamp hy0 hy1)
      (show ∀ c ∈ ("HMAC-SHA256".toList), jsonPlainChar c = true from by decide)
      (hexEncode_plain t.signature hsb))

theorem packToken_ne_nil (t : BearerToken) : packToken t ≠ [] := by
  intro h
  have hl := congrArg List.length h
  rw [packToken, b64Encode_length] at hl
  simp only [asciiBytes, List.length_map, marshalTokenJSON, List.length_append,
    List.length_nil, List.length_cons] at hl
  omega

theorem packToken_length_le (t : BearerToken)
    (hkl : t.apiKeyID.bytes.length = 16) (hkb : allBytes t.apiKeyID.bytes)
    (hy0 : 0 ≤ (civilFromDays ((t.timestamp.sec + t.timestamp.offsetMin * 60) / 86400)).1)
    (hy1 : (civilFromDays ((t.timestamp.sec + t.timestamp.offsetMin * 60) / 86400)).1 ≤ 9999)
    (hsb : allBytes t.signature) (hsl : t.signature.length ≤ 320) :
    (packToken t).length ≤ maxPackedLen := by
  have hts := rfc3339Format_length_le t.timestamp hy0 hy1
  rw [packToken, b64Encode_length]
  simp only [asciiBytes, List.length_map]
  rw [marshalTokenJSON,
    jsonStr_plain _ (uuidString_plain t.apiKeyID hkb),
    jsonStr_plain _ (rfc3339Format_plain t.timestamp hy0 hy1),
    jsonStr_plain _ (show ∀ c ∈ ("HMAC-SHA256".toList), jsonPlainChar c = true from by decide),
    jsonStr_plain _ (hexEncode_plain t.signature hsb)]
  have e1 : (("\x7b\"apiKeyID\":".toList).length) = 12 := rfl
  have e2 : ((",\"timestamp\":".toList).length) = 13 := rfl
  have e3 : ((",\"algo\":".toList).length) = 8 := rfl
  have e4 : ((",\"signature\":".toList).length) = 13 := rfl
  have e5 : (("HMAC-SHA256".toList).length) = 11 := rfl
  simp only [List.length_append, List.length_cons, List.length_nil,
    uuidString_length t.apiKeyID hkl, hexEncode_length, e1, e2, e3, e4, e5]
  simp only [maxPackedLen]
  omega

theorem dropWhile_head_false {α : Type} (p : α → Bool) (a : α) (l : List α)
    (h : p a = false) : (a :: l).dropWhile p = a :: l := by
  simp [List.dropWhile_cons, h]

theorem trimSpace_keep (s : List Char) (c₀ cₙ : Char) (mid : List Char)
    (hs : s = c₀ :: (mid ++ [cₙ]))
    (h₀ : isSpaceChar c₀ = false) (hₙ : isSpaceChar cₙ = false) :
    trimSpace s = s := by
  subst hs
  rw [trimSpace, dropWhile_head_false _ _ _ h₀]
  have h : ((c₀ :: (mid ++ [cₙ])).reverse) = cₙ :: (mid.reverse ++ [c₀]) := by
    simp
  rw [h, dropWhile_head_false _ _ _ hₙ, ← h, List.reverse_reverse]

theorem b64UrlChar_not_space (c : Char) (h : b64UrlChar c = true) :
    isSpaceChar c = false := by
  by_contra hs
  rw [Bool.not_eq_false] at hs
  simp only [isSpaceChar, decide_eq_true_eq] at hs
  rcases hs with hc | hc | hc | hc | hc | hc <;> subst hc <;> exact absurd h (by decide)

theorem goUTC_self (t : GoTime) (h : t.offsetMin = 0) : goUTC t = t := by
  rw [goUTC, show t = (⟨t.sec, t.nanos, t.offsetMin⟩ : GoTime) from rfl]
  simp [h]

theorem find?_filter_ne (hs : List (List Char × List (List Char))) (m n : List Char)
    (hne : m ≠ n) :
    (hs.filter (fun h => h.1 ≠ n)).find? (fun h => h.1 = m) =
      hs.find? (fun h => h.1 = m) := by
  induction hs with
  | nil => rfl
  | cons a tl ih =>
      rw [List.filter_cons]
      by_cases han : a.1 = n
      · rw [if_neg (by simp [han])]
        rw [List.find?_cons_of_neg _ (by simp [han]; exact fun h => hne h.symm)]
        exact ih
      · rw [if_pos (by simp [han])]
        by_cases ham : a.1 = m
        · rw [List.find?_cons_of_pos _ (by simp [ham]),
            List.find?_cons_of_pos _ (by simp [ham])]
        · rw [List.find?_cons_of_neg _ (by simp [ham]),
            List.find?_cons_of_neg _ (by simp [ham])]
          exact ih

theorem headerValues_headerSet_same (hs : List (List Char × List (List Char)))
    (n v : List Char) : headerValues (headerSet hs n v) n = [v] := by
  rw [headerValues, headerSet, List.find?_cons_of_pos _ (by simp)]
  rfl

theorem headerValues_headerSet_other (hs : List (List Char × List (List Char)))
    (n v m : List Char) (hne : m ≠ n) :
    headerValues (headerSet hs n v) m = headerValues hs m := by
  rw [headerValues, headerSet,
    List.find?_cons_of_neg _ (by simp; exact fun h => hne h.symm),
    find?_filter_ne hs m n hne, headerValues]

/-! ## C2, C3, C7, C8, C9 -/

theorem allBytes_of_all (bs : List Nat)
    (h : bs.all (fun b => decide (b < 256)) = true) : allBytes bs := by
  intro b hb
  have hx := List.all_eq_true.mp h b hb
  simpa using hx

/-- C2: the signature is HMAC-SHA-256 (32-byte output) keyed by the secret
over the RFC3339 UTC timestamp bytes followed directly by the raw body
bytes, the empty byte string when there is no body. -/
theorem C2_sign_spec (t : BearerToken) (secret : List Nat) (content : Option (List Nat)) :
    tokenSignBytes t secret (content.getD []) =
      specSignature secret (content.getD []) t.timestamp ∧
    (tokenSignBytes t secret (content.getD [])).length = 32 ∧
    (content = none →
      tokenSignBytes t secret (content.getD []) =
        hmacSha256 secret (asciiBytes (rfc3339Format (goUTC t.timestamp)))) := by
  refine ⟨rfl, hmacSha256_length _ _, fun h => ?_⟩
  subst h
  simp [tokenSignBytes, specSignature]

theorem C2_sign_spec_witness :
    tokenSignBytes emptyBearerToken [] [] =
      hmacSha256 [] (asciiBytes (rfc3339Format (goUTC emptyBearerToken.timestamp))) :=
  (C2_sign_spec emptyBearerToken [] none).2.2 rfl

set_option maxRecDepth 100000 in
/-- C3 counterexample: a timestamp with a fractional second does not
survive the round trip — `Pack` renders no nanoseconds, so `Unpack`
succeeds but returns a token whose timestamp differs. -/
theorem C3_counterexample :
    (unpackToken emptyBearerToken
        (packToken ⟨zeroUUID, ⟨0, 500000000, 0⟩, []⟩)).2 = none ∧
    (unpackToken emptyBearerToken
        (packToken ⟨zeroUUID, ⟨0, 500000000, 0⟩, []⟩)).1.timestamp ≠
      (⟨0, 500000000, 0⟩ : GoTime) := by
  decide

/-- C3: pack/unpack round trip, for tokens whose fields are canonical:
whole-second timestamp, offset within ±23:59, four-digit year, sixteen
identifier bytes, all byte values below 256, packed form within the
length bound. -/
theorem C3_pack_unpack (u t : BearerToken)
    (hkl : t.apiKeyID.bytes.length = 16) (hkb : allBytes t.apiKeyID.bytes)
    (hn : t.timestamp.nanos = 0) (hoff : t.timestamp.offsetMin.natAbs ≤ 1439)
    (hy0 : 0 ≤ (civilFromDays ((t.timestamp.sec + t.timestamp.offsetMin * 60) / 86400)).1)
    (hy1 : (civilFromDays ((t.timestamp.sec + t.timestamp.offsetMin * 60) / 86400)).1 ≤ 9999)
    (hsb : allBytes t.signature)
    (hlen : (packToken t).length ≤ maxPackedLen) :
    unpackToken u (packToken t) = (t, none) := by
  have h := unpackToken_envelope u t.apiKeyID t.timestamp ("HMAC-SHA256".toList) t.signature
    hkl hkb hn hoff hy0 hy1 (by decide) hsb hlen
  rw [if_neg (by decide)] at h
  rw [packToken, h]

set_option maxRecDepth 100000 in
theorem C3_pack_unpack_witness :
    ((⟨zeroUUID, ⟨0, 0, 0⟩, [7]⟩ : BearerToken).apiKeyID.bytes.length = 16 ∧
     allBytes (⟨zeroUUID, ⟨0, 0, 0⟩, [7]⟩ : BearerToken).apiKeyID.bytes ∧
     (⟨zeroUUID, ⟨0, 0, 0⟩, [7]⟩ : BearerToken).timestamp.nanos = 0 ∧
     allBytes (⟨zeroUUID, ⟨0, 0, 0⟩, [7]⟩ : BearerToken).signature ∧
     (packToken ⟨zeroUUID, ⟨0, 0, 0⟩, [7]⟩).length ≤ maxPackedLen) ∧
    unpackToken emptyBearerToken (packToken ⟨zeroUUID, ⟨0, 0, 0⟩, [7]⟩) =
      (⟨zeroUUID, ⟨0, 0, 0⟩, [7]⟩, none) :=
  ⟨⟨by decide, allBytes_of_all _ (by decide), by decide, allBytes_of_all _ (by decide),
    by decide⟩,
   C3_pack_unpack emptyBearerToken ⟨zeroUUID, ⟨0, 0, 0⟩, [7]⟩ (by decide)
     (allBytes_of_all _ (by decide)) (by decide) (by decide) (by decide) (by decide)
     (allBytes_of_all _ (by decide)) (by decide)⟩

set_option maxRecDepth 100000 in
/-- C7 counterexample: the tag is compared after TrimSpace and ToLower,
so the unrecognized spelling `hmac-sha256` (not the single recognized tag
`HMAC-SHA256`) is accepted rather than rejected. -/
theorem C7_counterexample :
    ("hmac-sha256".toList) ≠ ("HMAC-SHA256".toList) ∧
    (unpackToken emptyBearerToken (b64Encode (asciiBytes (marshalTokenJSON
      ⟨uuidString zeroUUID, rfc3339Format ⟨0, 0, 0⟩,
       ("hmac-sha256".toList), hexEncode []⟩)))).2 = none := by
  decide

/-- C7: an algorithm tag whose trimmed, lowercased form differs from
`hmac-sha256` makes `Unpack` fail with the unsupported-algorithm error
carrying that tag, whatever signature the envelope holds. -/
theorem C7_unsupported_algo (u : BearerToken) (kid : GoUUID) (ts : GoTime)
    (algo : List Char) (sig : List Nat)
    (hkl : kid.bytes.length = 16) (hkb : allBytes kid.bytes)
    (hn : ts.nanos = 0) (hoff : ts.offsetMin.natAbs ≤ 1439)
    (hy0 : 0 ≤ (civilFromDays ((ts.sec + ts.offsetMin * 60) / 86400)).1)
    (hy1 : (civilFromDays ((ts.sec + ts.offsetMin * 60) / 86400)).1 ≤ 9999)
    (ha : ∀ c ∈ algo, jsonPlainChar c = true)
    (hsb : allBytes sig)
    (hlen : (b64Encode (asciiBytes (marshalTokenJSON
        ⟨uuidString kid, rfc3339Format ts, algo, hexEncode sig⟩))).length ≤ maxPackedLen)
    (hne : lowerStr (trimSpace algo) ≠ ("hmac-sha256".toList)) :
    unpackToken u (b64Encode (asciiBytes (marshalTokenJSON
        ⟨uuidString kid, rfc3339Format ts, algo, hexEncode sig⟩))) =
      (u, some (UnpackErr.unsupportedAlgo algo)) := by
  rw [unpackToken_envelope u kid ts algo sig hkl hkb hn hoff hy0 hy1 ha hsb hlen,
    if_pos hne]

set_option maxRecDepth 100000 in
theorem C7_unsupported_algo_witness :
    (zeroUUID.bytes.length = 16 ∧ allBytes zeroUUID.bytes ∧
     allBytes ([] : List Nat) ∧
     (∀ c ∈ ("AES".toList), jsonPlainChar c = true) ∧
     (b64Encode (asciiBytes (marshalTokenJSON
        ⟨uuidString zeroUUID, rfc3339Format ⟨0, 0, 0⟩,
         ("AES".toList), hexEncode []⟩))).length ≤ maxPackedLen ∧
     lowerStr (trimSpace ("AES".toList)) ≠ ("hmac-sha256".toList)) ∧
    unpackToken emptyBearerToken (b64Encode (asciiBytes (marshalTokenJSON
        ⟨uuidString zeroUUID, rfc3339Format ⟨0, 0, 0⟩,
         ("AES".toList), hexEncode []⟩))) =
      (emptyBearerToken, some (UnpackErr.unsupportedAlgo ("AES".toList))) :=
  ⟨⟨by decide, allBytes_of_all _ (by decide), allBytes_of_all _ (by decide), by decide,
    by decide, by decide⟩,
   C7_unsupported_algo emptyBearerToken zeroUUID ⟨0, 0, 0⟩ ("AES".toList) []
     (by decide) (allBytes_of_all _ (by decide)) (by decide) (by decide) (by decide)
     (by decide) (by decide) (allBytes_of_all _ (by decide)) (by decide) (by decide)⟩

set_option maxRecDepth 100000 in
/-- C8 counterexample: `Pack` renders the timestamp in the timestamp's
own offset, not in UTC — packing a token whose timestamp carries a +01:00
offset differs from the UTC rendering the spec describes. -/
theorem C8_counterexample :
    packToken ⟨zeroUUID, ⟨0, 0, 60⟩, []⟩ ≠ specPackToken ⟨zeroUUID, ⟨0, 0, 60⟩, []⟩ := by
  decide

/-- C8: for timestamps already rendered in UTC (offset zero) the packed
form is exactly the spec's envelope — URL-safe base64 of the JSON object
with the UTC RFC3339 timestamp, the `HMAC-SHA256` tag, and the signature
in lowercase hex; every packed character is in the URL-safe base64
alphabet, and every signature character is a lowercase hex digit. -/
theorem C8_pack_format (t : BearerToken)
    (hoff0 : t.timestamp.offsetMin = 0)
    (hkb : allBytes t.apiKeyID.bytes) (hsb : allBytes t.signature)
    (hy0 : 0 ≤ (civilFromDays ((t.timestamp.sec + t.timestamp.offsetMin * 60) / 86400)).1)
    (hy1 : (civilFromDays ((t.timestamp.sec + t.timestamp.offsetMin * 60) / 86400)).1 ≤ 9999) :
    packToken t = specPackToken t ∧
    (∀ c ∈ packToken t, b64UrlChar c = true) ∧
    (∀ c ∈ hexEncode t.signature,
      (48 ≤ c.toNat ∧ c.toNat ≤ 57) ∨ (97 ≤ c.toNat ∧ c.toNat ≤ 102)) := by
  refine ⟨?_, packToken_alphabet t hkb hy0 hy1 hsb, ?_⟩
  · rw [packToken, specPackToken, goUTC_self t.timestamp hoff0]
  · intro c hc
    simp only [hexEncode, List.mem_flatMap, List.mem_cons, List.not_mem_nil, or_false] at hc
    obtain ⟨b, hb, hcc⟩ := hc
    have hblt := hsb b hb
    rcases hcc with rfl | rfl
    · exact lowerHexChar _ (by omega)
    · exact lowerHexChar _ (by omega)

theorem C8_pack_format_witness :
    ((⟨zeroUUID, ⟨0, 0, 0⟩, [255]⟩ : BearerToken).timestamp.offsetMin = 0 ∧
     allBytes (⟨zeroUUID, ⟨0, 0, 0⟩, [255]⟩ : BearerToken).apiKeyID.bytes ∧
     allBytes (⟨zeroUUID, ⟨0, 0, 0⟩, [255]⟩ : BearerToken).signature) ∧
    (packToken ⟨zeroUUID, ⟨0, 0, 0⟩, [255]⟩ =
       specPackToken ⟨zeroUUID, ⟨0, 0, 0⟩, [255]⟩ ∧
     (∀ c ∈ packToken ⟨zeroUUID, ⟨0, 0, 0⟩, [255]⟩, b64UrlChar c = true) ∧
     (∀ c ∈ hexEncode (⟨zeroUUID, ⟨0, 0, 0⟩, [255]⟩ : BearerToken).signature,
       (48 ≤ c.toNat ∧ c.toNat ≤ 57) ∨ (97 ≤ c.toNat ∧ c.toNat ≤ 102))) :=
  ⟨⟨by decide, allBytes_of_all _ (by decide), allBytes_of_all _ (by decide)⟩,
   C8_pack_format ⟨zeroUUID, ⟨0, 0, 0⟩, [255]⟩ (by decide) (allBytes_of_all _ (by decide))
     (allBytes_of_all _ (by decide)) (by decide) (by decide)⟩

/-- C9: signing an outbound request leaves method, URL, body and every
other header unchanged, signs over exactly the body bytes that remain on
the request, and sets `Authorization` to the single value
`Bearer <packed signed token>`. -/
theorem C9_client_sign_frame (c : GoClient) (req : GoRequest) (now : GoTime) :
    (clientSign c req now).method = req.method ∧
    (clientSign c req now).url = req.url ∧
    (clientSign c req now).body = req.body ∧
    headerValues (clientSign c req now).headers ("Authorization".toList) =
      [("Bearer ".toList) ++
        packToken (tokenSignOp ⟨c.keyID, now, []⟩ c.keySec ((req.body).getD []))] ∧
    (∀ name, name ≠ ("Authorization".toList) →
      headerValues (clientSign c req now).headers name = headerValues req.headers name) := by
  refine ⟨rfl, rfl, rfl, ?_, ?_⟩
  · exact headerValues_headerSet_same _ _ _
  · intro name hne
    exact headerValues_headerSet_other _ _ _ _ hne

theorem C9_client_sign_frame_witness :
    headerValues (clientSign ⟨zeroUUID, [], 0⟩
        ⟨("POST".toList), ("/x".toList), [(("X-Test".toList), [("1".toList)])], some [1, 2]⟩
        ⟨0, 0, 0⟩).headers ("X-Test".toList) =
      headerValues [(("X-Test".toList), [("1".toList)])] ("X-Test".toList) :=
  (C9_client_sign_frame ⟨zeroUUID, [], 0⟩
      ⟨("POST".toList), ("/x".toList), [(("X-Test".toList), [("1".toList)])], some [1, 2]⟩
      ⟨0, 0, 0⟩).2.2.2.2 ("X-Test".toList) (by decide)

/-! ## C4 -/

theorem dropWhile_nospace (p : Char → Bool) (s : List Char)
    (h : ∀ c ∈ s, p c = false) : s.dropWhile p = s := by
  cases s with
  | nil => rfl
  | cons a l => exact dropWhile_head_false p a l (h a (by simp))

theorem trimSpace_nospace (s : List Char) (h : ∀ c ∈ s, isSpaceChar c = false) :
    trimSpace s = s := by
  rw [trimSpace, dropWhile_nospace _ _ h,
    dropWhile_nospace _ _ (fun c hc => h c (by simpa using hc)), List.reverse_reverse]

/-- C4 (code bug): a request carrying one well-formed `Bearer` header
whose token unpacks and verifies but names a foreign key identifier drives
the handler into the foreign-signer branch, which sets status 403 and then
panics calling `Error()` on the nil body-read error — the explanatory
response body is never written and the business callback never runs. -/
theorem C4_foreign_key_panics {τ : Type} (c : GoClient) (parseTrx : List Nat → Option τ)
    (callback : τ → Option (List Char)) (p : List Char) (token : BearerToken)
    (body : List Nat) (now : GoTime)
    (hp : ∀ ch ∈ p, b64UrlChar ch = true) (hp0 : p ≠ [])
    (hu : unpackToken emptyBearerToken p = (token, none))
    (hv : tokenVerify token c.keySec body c.maxTimeDiff now = none)
    (hk : token.apiKeyID ≠ c.keyID) :
    webhookHandler c parseTrx callback [("Bearer ".toList) ++ p] body now =
      .panicNilError 403 := by
  rcases List.eq_nil_or_concat p with rfl | ⟨q, cl, rfl⟩
  · exact absurd rfl hp0
  rw [List.concat_eq_append] at hp hp0 hu ⊢
  have hcl : b64UrlChar cl = true := hp cl (by simp)
  have htr : trimSpace (("Bearer ".toList) ++ (q ++ [cl])) =
      'B' :: ((("earer ".toList) ++ q) ++ [cl]) := by
    rw [show ("Bearer ".toList) ++ (q ++ [cl]) =
        'B' :: ((("earer ".toList) ++ q) ++ [cl]) from by simp]
    exact trimSpace_keep _ 'B' cl (("earer ".toList) ++ q) rfl (by decide)
      (b64UrlChar_not_space cl hcl)
  have htr2 : trimSpace (q ++ [cl]) = q ++ [cl] :=
    trimSpace_nospace _ (fun c hc => b64UrlChar_not_space c (hp c hc))
  have he6 : (("earer ".toList)).length = 6 := rfl
  simp only [webhookHandler, List.length_cons, List.length_nil, List.getD_cons_zero]
  rw [if_neg (by simp), if_neg (by simp)]
  rw [htr]
  rw [if_neg (by simp [List.length_append, he6])]
  rw [show ('B' :: ((("earer ".toList) ++ q) ++ [cl])).take 7 = ("Bearer ".toList)
    from rfl]
  rw [if_neg (by decide)]
  rw [show ('B' :: ((("earer ".toList) ++ q) ++ [cl])).drop 7 = q ++ [cl] from rfl]
  rw [htr2]
  rw [if_neg (by simp [List.length_append])]
  rw [hu]
  dsimp only
  rw [hv]
  dsimp only
  rw [if_pos hk]

theorem demoSig_length : demoSig.length = 32 :=
  hmacSha256_length [] _

theorem demoSig_bytes : allBytes demoSig :=
  hmacSha256_allBytes [] _

theorem demoToken_sig : demoToken.signature = demoSig := rfl

theorem demo_unpack : unpackToken emptyBearerToken (packToken demoToken) =
    (demoToken, none) := by
  have h := unpackToken_envelope emptyBearerToken zeroUUID demoTime
    ("HMAC-SHA256".toList) demoSig (by decide) (allBytes_of_all _ (by decide)) rfl
    (by decide) (by decide) (by decide) (by decide) demoSig_bytes
    (packToken_length_le demoToken (by decide) (allBytes_of_all _ (by decide))
      (by decide) (by decide) demoSig_bytes
      (by rw [demoToken_sig, demoSig_length]; omega))
  rw [if_neg (by decide)] at h
  exact h

theorem demo_verify :
    tokenVerify demoToken demoClient.keySec [] demoClient.maxTimeDiff demoTime = none := by
  have hsigeq : constantTimeEq demoToken.signature
      (tokenSignBytes demoToken demoClient.keySec []) = true := by
    rw [show tokenSignBytes demoToken demoClient.keySec [] = demoSig from rfl,
      demoToken_sig]
    simp [constantTimeEq]
  rw [tokenVerify, if_pos hsigeq, if_neg (by decide)]

set_option maxRecDepth 100000 in
theorem C4_foreign_key_panics_witness :
    ((∀ ch ∈ packToken demoToken, b64UrlChar ch = true) ∧
     packToken demoToken ≠ [] ∧
     unpackToken emptyBearerToken (packToken demoToken) = (demoToken, none) ∧
     tokenVerify demoToken demoClient.keySec [] demoClient.maxTimeDiff demoTime = none ∧
     demoToken.apiKeyID ≠ demoClient.keyID) ∧
    webhookHandler demoClient (fun _ => some ()) (fun _ => none)
      [("Bearer ".toList) ++ packToken demoToken] [] demoTime =
      WebhookOutcome.panicNilError 403 :=
  ⟨⟨packToken_alphabet demoToken (allBytes_of_all _ (by decide)) (by decide) (by decide)
      demoSig_bytes,
    packToken_ne_nil demoToken, demo_unpack, demo_verify, by decide⟩,
   C4_foreign_key_panics demoClient (fun _ => some ()) (fun _ => none)
     (packToken demoToken) demoToken [] demoTime
     (packToken_alphabet demoToken (allBytes_of_all _ (by decide)) (by decide) (by decide)
       demoSig_bytes)
     (packToken_ne_nil demoToken) demo_unpack demo_verify (by decide)⟩

end CorpBank
